import Mathlib

/-!
# Verification of the bs-treeview state-synchronization engine

This file shallowly embeds the tree state engine of the `bs-treeview`
library (files `src/lib/BSTreeViewNode.ts`, `src/lib/BSTreeView.ts`,
`src/lib/BSTreeViewNodeState.ts`, `src/lib/BSTreeViewOptions.ts` and the
options classes) and proves or refutes the frozen claims about it.

Modelling conventions:
* JS strings are `List Char`; JS `number` indices and levels are `Nat`.
* The tri-state fields `checked : boolean|null` and `expanded : boolean|null`
  become `Option Bool` with `none` = JS `null`; the initially-undefined
  `_visible` and `_searchResult` fields become `Option Bool` with `none` =
  JS `undefined`.
* A node is addressed by its position path (list of sibling indices from the
  root list).  The JS `_parentNode` back-reference established by
  `_updateChildrenHierarchy` is exactly "drop the last component of the
  path" (and `null` for a root-level node), so parent navigation is embedded
  structurally; `parentId` evaluation is an `Except` because
  `this._parentNode._nodeId` dereferences `null` for root-level nodes.
* DOM manipulation (class lists, icons, aria attributes) has no engine
  state and is omitted; event dispatch (`_triggerEvent`) is embedded as a
  returned list of events, emitted only when `!options.silent`, exactly as
  in the source.
* Fallible code (`parentId` on a root node, the sort comparator's
  `throw new Error`) returns `Except`.
-/

namespace BsTreeview

/-- State flags of one node; embeds `BSTreeViewNodeState`.
`checked : boolean|null = false`, `disabled = false`,
`expanded : boolean|null = null`, `selected = false`,
`_visible : boolean` (initially undefined, here `none`). -/
structure BSTreeViewNodeState where
  checked : Option Bool := some false
  disabled : Bool := false
  expanded : Option Bool := none
  selected : Bool := false
  visible : Option Bool := none
deriving Repr, DecidableEq

/-- The global options relevant to the engine; embeds the corresponding
fields (with their defaults) of `BSTreeViewOptions`. -/
structure BSTreeViewOptions where
  levels : Nat := 1
  hierarchicalCheck : Bool := false
  propagateCheckEvent : Bool := false
  multiSelect : Bool := false
  preventUnselect : Bool := false
  allowReselect : Bool := false
  showCheckbox : Bool := false
  highlightChanges : Bool := false
deriving Repr, DecidableEq

/-- Per-call options; merges `BSTreeViewMethodOptions` (`silent`, `_force`),
`BSTreeViewSelectOptions` (`_unselecting`) and `BSTreeViewDisableOptions`
(`keepState`) into one record.  JS `undefined` fields read as falsy, which
the `false` defaults reproduce. -/
structure BSTreeViewMethodOptions where
  silent : Bool := false
  force : Bool := false
  unselecting : Bool := false
  keepState : Bool := false
deriving Repr, DecidableEq

/-- The event names of `BSTreeViewEventNames.ts` that the embedded engine
can raise. -/
inductive EventName where
  | nodeChecked
  | nodeUnchecked
  | nodeSelected
  | nodeUnselected
  | nodeExpanded
  | nodeCollapsed
  | nodeDisabled
  | searchCompleted
deriving Repr, DecidableEq

/-- An emitted notification: the path of the node it was triggered on
(`[]` for tree-level events) together with the event name. -/
abbrev Event := List Nat × EventName

/-- A tree node; embeds `BSTreeViewNode`.  Fields: `text`, `state`,
`_searchResult`, `_level`, `_index`, `_nodeId`, `nodes` (children). -/
inductive BSTreeViewNode : Type where
  | mk
      (text : List Char)
      (state : BSTreeViewNodeState)
      (searchResult : Option Bool)
      (level : Nat)
      (index : Nat)
      (nodeId : List Char)
      (nodes : List BSTreeViewNode) : BSTreeViewNode

namespace BSTreeViewNode

def text : BSTreeViewNode → List Char
  | .mk t _ _ _ _ _ _ => t

def state : BSTreeViewNode → BSTreeViewNodeState
  | .mk _ s _ _ _ _ _ => s

def searchResult : BSTreeViewNode → Option Bool
  | .mk _ _ r _ _ _ _ => r

def level : BSTreeViewNode → Nat
  | .mk _ _ _ l _ _ _ => l

def index : BSTreeViewNode → Nat
  | .mk _ _ _ _ i _ _ => i

def nodeId : BSTreeViewNode → List Char
  | .mk _ _ _ _ _ d _ => d

def nodes : BSTreeViewNode → List BSTreeViewNode
  | .mk _ _ _ _ _ _ ns => ns

/-- `hasChildren(): boolean { return this.nodes && this.nodes.length > 0; }` -/
def hasChildren (n : BSTreeViewNode) : Bool :=
  !n.nodes.isEmpty

/-- Replace the state record (models a write to `this.state.<field>`). -/
def withState (f : BSTreeViewNodeState → BSTreeViewNodeState) :
    BSTreeViewNode → BSTreeViewNode
  | .mk t s r l i d ns => .mk t (f s) r l i d ns

/-- Replace the children list. -/
def withNodes (f : List BSTreeViewNode → List BSTreeViewNode) :
    BSTreeViewNode → BSTreeViewNode
  | .mk t s r l i d ns => .mk t s r l i d (f ns)

/-- Write `this._searchResult`. -/
def withSearchResult (v : Option Bool) : BSTreeViewNode → BSTreeViewNode
  | .mk t s _ l i d ns => .mk t s v l i d ns

end BSTreeViewNode

/-- `l[i]` element access of a JS array (undefined out of bounds). -/
def getIdx? : List α → Nat → Option α
  | [], _ => none
  | a :: _, 0 => some a
  | _ :: l, n + 1 => getIdx? l n

/-- Modify the element at an index, if present. -/
def modifyIdx (f : α → α) : Nat → List α → List α
  | _, [] => []
  | 0, a :: l => f a :: l
  | n + 1, a :: l => a :: modifyIdx f n l

/-- The node of a forest addressed by a (nonempty) path of sibling
indices.  This is the structural reading of the `_parentNode` / `nodes`
pointer graph that `_updateChildrenHierarchy` establishes. -/
def getNode? : List BSTreeViewNode → List Nat → Option BSTreeViewNode
  | _, [] => none
  | ns, i :: p =>
    match getIdx? ns i with
    | none => none
    | some n => if p.isEmpty then some n else getNode? n.nodes p

/-- Apply `f` to the node addressed by the path, leaving the rest of the
forest unchanged (the functional rendering of a mutation through a node
reference). -/
def modifyNode (f : BSTreeViewNode → BSTreeViewNode) :
    List BSTreeViewNode → List Nat → List BSTreeViewNode
  | ns, [] => ns
  | ns, i :: p =>
    modifyIdx
      (fun n =>
        if p.isEmpty then f n else n.withNodes (fun cs => modifyNode f cs p))
      i ns

/-! ## Node-id strings

`nodeId` is a dot-separated decimal path (`"0.2.1"`).  We embed the JS
string operations used by `_updateChildrenHierarchy` (number-to-string
coercion and `+ '.' +` concatenation) and by `_sortNodes`
(`split('.')` and `parseInt`). -/

/-- Big-endian decimal digit characters of `n` (empty for 0), with a fuel
argument making the recursion structural so that terms reduce. -/
def natCharsAux : Nat → Nat → List Char
  | 0, _ => []
  | fuel + 1, n =>
    if n = 0 then []
    else natCharsAux fuel (n / 10) ++ [Nat.digitChar (n % 10)]

/-- Decimal rendering of a `Nat`, as JS `'' + n` produces it. -/
def natChars (n : Nat) : List Char :=
  if n = 0 then ['0'] else natCharsAux n n

/-- Value of a big-endian list of decimal digit characters. -/
def digitsVal (s : List Char) : Nat :=
  s.foldl (fun a c => a * 10 + (c.toNat - 48)) 0

/-- JS `parseInt` restricted to what the comparator feeds it: reads the
leading run of decimal digits, `none` (NaN) when there is none. -/
def jsParseInt (s : List Char) : Option Nat :=
  let ds := s.takeWhile Char.isDigit
  if ds.isEmpty then none else some (digitsVal ds)

/-- JS `String.prototype.split('.')`: `""` splits to `[""]`, separators at
the ends produce empty components. -/
def splitDot : List Char → List (List Char)
  | [] => [[]]
  | c :: cs =>
    if c = '.' then [] :: splitDot cs
    else
      match splitDot cs with
      | [] => [[c]]
      | t :: ts => (c :: t) :: ts

/-- Join components with `'.'` (inverse of `splitDot` on dot-free parts). -/
def joinDot : List (List Char) → List Char
  | [] => []
  | [x] => x
  | x :: xs => x ++ '.' :: joinDot xs

/-- The node-id string of a path of decimal components. -/
def renderPath (p : List Nat) : List Char :=
  joinDot (p.map natChars)

/-- A syntactically valid dot-path: splitting on `'.'` yields nonempty
all-digit components. -/
def validDotPath (s : List Char) : Bool :=
  (splitDot s).all fun c => !c.isEmpty && c.all Char.isDigit

/-! ## The render-order comparator (`BSTreeView._sortNodes`)

```
if (pairA[0] === pairB[0]) return 0;
const a = pairA[0].split('.').map(l => parseInt(l));
const b = pairB[0].split('.').map(l => parseInt(l));
const c = Math.max(a.length, b.length);
for (let i=0; i<c; i++) {
    if (a[i] === undefined) return -1;
    if (b[i] === undefined) return +1;
    if (a[i] - b[i] > 0) return +1;
    if (a[i] - b[i] < 0) return -1;
}
throw new Error("Unable to sort nodes");
```
-/

/-- The component loop of the comparator.  A `none` entry is a `NaN`
component: both arithmetic comparisons are false, so the loop moves on.
`none` as the result means the loop ran to completion (the `throw`). -/
def cmpEntries : List (Option Nat) → List (Option Nat) → Option Ordering
  | [], [] => none
  | [], _ :: _ => some .lt
  | _ :: _, [] => some .gt
  | a :: as, b :: bs =>
    match a, b with
    | some x, some y =>
      if y < x then some .gt
      else if x < y then some .lt
      else cmpEntries as bs
    | _, _ => cmpEntries as bs

/-- The full comparator of `_sortNodes`; `Except.error` is the
`throw new Error("Unable to sort nodes")` path. -/
def cmpNodeIds (a b : List Char) : Except Unit Ordering :=
  if a = b then .ok .eq
  else
    match cmpEntries ((splitDot a).map jsParseInt) ((splitDot b).map jsParseInt) with
    | some o => .ok o
    | none => .error ()

/-- Pure path comparison: componentwise on numbers, a strict prefix sorts
first.  `cmpNodeIds` coincides with it on rendered paths (proved below). -/
def pathCmp : List Nat → List Nat → Ordering
  | [], [] => .eq
  | [], _ :: _ => .lt
  | _ :: _, [] => .gt
  | a :: as, b :: bs =>
    if b < a then .gt else if a < b then .lt else pathCmp as bs

/-- Insertion into a sorted list, with the comparator's `throw`
propagated; `insertSorted` and `sortPairs` together embed
`[...nodes].sort(comparator)` of `_sortNodes`. -/
def insertSorted (cmp : α → α → Except Unit Ordering) (x : α) :
    List α → Except Unit (List α)
  | [] => .ok [x]
  | y :: ys =>
    match cmp x y with
    | .error e => .error e
    | .ok .gt => (insertSorted cmp x ys).map fun l => y :: l
    | .ok _ => .ok (x :: y :: ys)

/-- Sorting by an `Except`-valued comparator. -/
def sortPairs (cmp : α → α → Except Unit Ordering) :
    List α → Except Unit (List α)
  | [] => .ok []
  | x :: xs => (sortPairs cmp xs).bind (insertSorted cmp x)

/-! ## The hierarchy indexer (`BSTreeViewNode._updateChildrenHierarchy`)

For each child at position `i` of a parent at level `plvl`:
`_level := plvl + 1`, `_index := i`,
`_nodeId := parent._nodeId + '.' + i` (for the virtual root, whose level is
0 and whose own id is unset, the source uses `(new_level - 1) + '.' + i`
instead; since `new_level - 1 = plvl`, passing `natChars plvl` as the
prefix covers both branches), the `expanded` default is resolved, the
`visible` flag is derived from the parent (already-updated) `expanded`
state and the depth limit, children are recursed into depth-first, and the
child is registered into the flat map after its subtree. -/

mutual

def indexNode (opts : BSTreeViewOptions) (pid : List Char) (pexp : Option Bool)
    (real : Bool) (plvl i : Nat) :
    BSTreeViewNode → BSTreeViewNode × List (List Char × BSTreeViewNode)
  | .mk t s sr _ _ _ cs =>
    let newLevel := plvl + 1
    let nid := pid ++ '.' :: natChars i
    -- if no expanded state was passed as data (null), derive it
    let exp : Option Bool :=
      if s.expanded = none then
        some (!s.disabled && decide (newLevel < opts.levels) && !cs.isEmpty)
      else s.expanded
    -- `!!((parent && parent.state && parent.state.expanded) || (new_level <= levels))`
    let vis : Option Bool :=
      some ((real && decide (pexp = some true)) || decide (newLevel ≤ opts.levels))
    let res := indexForest opts nid exp true newLevel 0 cs
    let n' := BSTreeViewNode.mk t
      { s with expanded := exp, visible := vis } sr newLevel i nid res.1
    (n', res.2 ++ [(nid, n')])

def indexForest (opts : BSTreeViewOptions) (pid : List Char) (pexp : Option Bool)
    (real : Bool) (plvl i : Nat) :
    List BSTreeViewNode → List BSTreeViewNode × List (List Char × BSTreeViewNode)
  | [] => ([], [])
  | n :: rest =>
    let r1 := indexNode opts pid pexp real plvl i n
    let r2 := indexForest opts pid pexp real plvl (i + 1) rest
    (r1.1 :: r2.1, r1.2 ++ r2.2)

end

/-! ## The tree view (`BSTreeView`) -/

/-- The engine-relevant state of a `BSTreeView`: the root list `_tree`,
the flat map `_nodes` (insertion-ordered key-value list), the sorted view
`_orderedNodes`, and the checked-node cache `_checkedNodes` (stored as
node ids). -/
structure BSTreeView where
  options : BSTreeViewOptions
  tree : List BSTreeViewNode
  nodesMap : List (List Char × BSTreeViewNode) := []
  orderedNodes : List (List Char × BSTreeViewNode) := []
  checkedNodes : List (List Char) := []

/-- `Map.prototype.set`: overwrite in place if the key exists, else append. -/
def mapSet (m : List (List Char × β)) (k : List Char) (v : β) :
    List (List Char × β) :=
  if m.any (fun kv => kv.1 == k) then
    m.map fun kv => if kv.1 == k then (k, v) else kv
  else m ++ [(k, v)]

/-- Build a JS `Map` from an entry list (`new Map(entries)`). -/
def mapFromList (l : List (List Char × β)) : List (List Char × β) :=
  l.foldl (fun m kv => mapSet m kv.1 kv.2) []

/-- `_inheritCheckboxChanges`: refill `_checkedNodes` from the ordered map
when `showCheckbox && highlightChanges` (a truthy `checked` is
`some true`). -/
def inheritCheckboxChanges (σ : BSTreeView) : BSTreeView :=
  if σ.options.showCheckbox && σ.options.highlightChanges then
    { σ with checkedNodes :=
        ((σ.orderedNodes.filter fun kv => kv.2.state.checked == some true).map
          Prod.fst) }
  else σ

/-- `_updateFlatTreeMaps`: rebuild the flat map from a virtual root at
level 0 wrapping the root list, sort it (the comparator may throw), then
recompute the checked cache. -/
def updateFlatTreeMaps (σ : BSTreeView) : Except Unit BSTreeView :=
  let res := indexForest σ.options (natChars 0) none false 0 0 σ.tree
  let nodes := mapFromList res.2
  match sortPairs (fun a b => cmpNodeIds a.1 b.1) nodes with
  | .error e => .error e
  | .ok ord =>
    .ok (inheritCheckboxChanges
      { σ with tree := res.1, nodesMap := nodes, orderedNodes := ord })

/-- `getNodes()` returns `_orderedNodes`. -/
def getNodes (σ : BSTreeView) : List (List Char × BSTreeViewNode) :=
  σ.orderedNodes

/-! ## Node state mutators -/

/-- `_setVisible(state, options)`: guarded write of `state._visible`
(no notification is raised). -/
def setVisibleNode (copts : BSTreeViewMethodOptions) (v : Bool)
    (n : BSTreeViewNode) : BSTreeViewNode :=
  if !copts.force && (some v == n.state.visible) then n
  else n.withState fun s => { s with visible := some v }

mutual

/-- `setExpanded(state, options)` on one node.  Events are reported with
paths relative to the node (`[]` is the node itself). -/
def setExpandedNode (opts : BSTreeViewOptions) (copts : BSTreeViewMethodOptions)
    (v : Bool) : BSTreeViewNode → BSTreeViewNode × List Event
  | n@(.mk t s sr l ix d cs) =>
    if !copts.force && (some v == s.expanded) then (n, [])
    else if v && !cs.isEmpty then
      -- expand: direct children become visible, deeper nodes untouched
      (BSTreeViewNode.mk t { s with expanded := some true } sr l ix d
        (cs.map (setVisibleNode copts true)),
       if copts.silent then [] else [([], .nodeExpanded)])
    else if !v then
      -- collapse: each child is hidden and recursively collapsed
      let res := collapseChildren opts copts 0 cs
      (BSTreeViewNode.mk t { s with expanded := some false } sr l ix d res.1,
       res.2 ++ if copts.silent then [] else [([], .nodeCollapsed)])
    else (n, [])

/-- The `forEach` of the collapse branch:
`node._setVisible(false, options); node.setExpanded(false, options);`.
The two calls touch disjoint state (`_visible` of the child versus
`expanded` of the child and its subtree) and `setExpanded` does not read
`_visible`, so applying `_setVisible` after the recursive call yields the
same node. -/
def collapseChildren (opts : BSTreeViewOptions) (copts : BSTreeViewMethodOptions)
    (i : Nat) : List BSTreeViewNode → List BSTreeViewNode × List Event
  | [] => ([], [])
  | c :: rest =>
    let rc := setExpandedNode opts copts false c
    let r2 := collapseChildren opts copts (i + 1) rest
    (setVisibleNode copts false rc.1 :: r2.1,
     rc.2.map (fun e => (i :: e.1, e.2)) ++ r2.2)

end

/-- `setExpanded` through a tree-view path. -/
def setExpanded (copts : BSTreeViewMethodOptions) (v : Bool) (σ : BSTreeView)
    (p : List Nat) : BSTreeView × List Event :=
  match getNode? σ.tree p with
  | none => (σ, [])
  | some n =>
    let r := setExpandedNode σ.options copts v n
    ({ σ with tree := modifyNode (fun _ => r.1) σ.tree p },
     r.2.map fun e => (p ++ e.1, e.2))

/- The paths (in pre-order, the order of `_orderedNodes`) of the nodes
with `state.selected` truthy; embeds
`_findNodes('true', 'state.selected')`.  `selPathsN` lists the selected
positions within one subtree, relative to its root (`[]` = the root). -/
mutual

def selPathsN : BSTreeViewNode → List (List Nat)
  | .mk _ s _ _ _ _ cs =>
    (if s.selected then [[]] else []) ++ selPaths 0 cs

def selPaths (i : Nat) : List BSTreeViewNode → List (List Nat)
  | [] => []
  | c :: rest =>
    (selPathsN c).map (fun p => i :: p) ++ selPaths (i + 1) rest

end

/- The multi-select-off pass of `setSelected(true)`:
`selectedNodes.forEach(n => { options._unselecting = true;
n.setSelected(false, options); })`.  Each of those calls passes its
equality guard (the node is selected), skips the prevent-unselect branch
(`_unselecting` is set), clears `selected` and raises `nodeUnselected`
unless silent; this traversal performs exactly those updates, visiting
nodes in the pre-order of `_orderedNodes`. -/
mutual

def unselectAllN (copts : BSTreeViewMethodOptions) :
    BSTreeViewNode → BSTreeViewNode × List Event
  | .mk t s sr l ix d cs =>
    let rcs := unselectAllNodes copts 0 cs
    (BSTreeViewNode.mk t { s with selected := false } sr l ix d rcs.1,
     (if s.selected && !copts.silent then [([], .nodeUnselected)] else [])
       ++ rcs.2)

def unselectAllNodes (copts : BSTreeViewMethodOptions) (i : Nat) :
    List BSTreeViewNode → List BSTreeViewNode × List Event
  | [] => ([], [])
  | c :: rest =>
    let r1 := unselectAllN copts c
    let r2 := unselectAllNodes copts (i + 1) rest
    (r1.1 :: r2.1, r1.2.map (fun e => (i :: e.1, e.2)) ++ r2.2)

end

/-- `setSelected(state, options)` (`BSTreeViewNode`, with the tree-wide
interactions routed through the owning view). -/
def setSelected (copts : BSTreeViewMethodOptions) (v : Bool) (σ : BSTreeView)
    (p : List Nat) : BSTreeView × List Event :=
  match getNode? σ.tree p with
  | none => (σ, [])
  | some n =>
    if !copts.force && (v == n.state.selected) then (σ, [])
    else if v then
      let r1 :=
        if !σ.options.multiSelect then unselectAllNodes copts 0 σ.tree
        else (σ.tree, [])
      let t2 := modifyNode (fun m => m.withState fun s => { s with selected := true })
        r1.1 p
      ({ σ with tree := t2 },
       r1.2 ++ if copts.silent then [] else [(p, .nodeSelected)])
    else
      if σ.options.preventUnselect && !copts.unselecting
          && (selPaths 0 σ.tree).length == 1 then
        -- unselecting the last selected node is rejected; a reselect
        -- notification still fires when allowReselect is set
        (σ, if σ.options.allowReselect && !copts.silent then [(p, .nodeSelected)]
            else [])
      else
        let t' := modifyNode
          (fun m => m.withState fun s => { s with selected := false }) σ.tree p
        ({ σ with tree := t' },
         if copts.silent then [] else [(p, .nodeUnselected)])

/-- `setChecked(state, options)` on one node (the `highlightChanges` block
only edits CSS classes).  The branch order follows the source: truthy
state, then `state === null && hierarchicalCheck`, else unchecked. -/
def setCheckedNode (opts : BSTreeViewOptions) (copts : BSTreeViewMethodOptions)
    (v : Option Bool) (n : BSTreeViewNode) : BSTreeViewNode × List Event :=
  if !copts.force && (v == n.state.checked) then (n, [])
  else
    match v with
    | some true =>
      (n.withState fun s => { s with checked := some true },
       if copts.silent then [] else [([], .nodeChecked)])
    | none =>
      if opts.hierarchicalCheck then
        (n.withState fun s => { s with checked := none },
         if copts.silent then [] else [([], .nodeUnchecked)])
      else
        (n.withState fun s => { s with checked := some false },
         if copts.silent then [] else [([], .nodeUnchecked)])
    | some false =>
      (n.withState fun s => { s with checked := some false },
       if copts.silent then [] else [([], .nodeUnchecked)])

/-- `setChecked` through a tree-view path. -/
def setChecked (copts : BSTreeViewMethodOptions) (v : Option Bool)
    (σ : BSTreeView) (p : List Nat) : BSTreeView × List Event :=
  match getNode? σ.tree p with
  | none => (σ, [])
  | some n =>
    let r := setCheckedNode σ.options copts v n
    ({ σ with tree := modifyNode (fun _ => r.1) σ.tree p },
     r.2.map fun e => (p ++ e.1, e.2))

/-- `setDisabled(state, options)`: disabling writes `disabled` first and
then, unless `keepState`, force-clears `selected`, `checked` and
`expanded` through the ordinary mutators; enabling only clears
`disabled`. Both branches raise `EVENT_NODE_DISABLED` (so does the enable
branch in the source). -/
def setDisabled (copts : BSTreeViewMethodOptions) (v : Bool) (σ : BSTreeView)
    (p : List Nat) : BSTreeView × List Event :=
  match getNode? σ.tree p with
  | none => (σ, [])
  | some n =>
    if !copts.force && (v == n.state.disabled) then (σ, [])
    else if v then
      let t1 := modifyNode
        (fun m => m.withState fun s => { s with disabled := true }) σ.tree p
      let σ1 := { σ with tree := t1 }
      let r :=
        if !copts.keepState then
          let a := setSelected copts false σ1 p
          let b := setChecked copts (some false) a.1 p
          let c := setExpanded copts false b.1 p
          (c.1, a.2 ++ b.2 ++ c.2)
        else (σ1, ([] : List Event))
      (r.1, r.2 ++ if copts.silent then [] else [(p, .nodeDisabled)])
    else
      let t' := modifyNode
        (fun m => m.withState fun s => { s with disabled := false }) σ.tree p
      ({ σ with tree := t' },
       if copts.silent then [] else [(p, .nodeDisabled)])

/-- JS boolean negation of a `boolean|null` value (`!null = true`). -/
def jsNot : Option Bool → Bool
  | some true => false
  | _ => true

/-- The ancestor recomputation of `toggleChecked`:
`nodes.reduce((acc, curr) => acc === curr.state.checked ? acc : null,
nodes[0].state.checked)`.  Ancestors always have at least one child; the
`[]` case is unreachable. -/
def reduceAgree : List (Option Bool) → Option Bool
  | [] => none
  | c :: cs => (c :: cs).foldl (fun acc x => if acc == x then acc else none) c

/-- The proper nonempty front segments of a path, shortest first. -/
def properHeads : List Nat → List (List Nat)
  | [] => []
  | [_] => []
  | a :: rest => [a] :: (properHeads rest).map (a :: ·)

/-- The proper ancestors of a path (`dropLast`, `dropLast.dropLast`, ...),
closest first: the order in which the upward `while` loop of
`toggleChecked` visits them. -/
def ancestorChain (p : List Nat) : List (List Nat) :=
  (properHeads p).reverse

/-- `get parentId()` is `this._parentNode._nodeId ?? null`: for a
root-level node `_parentNode` is `null` and the property access throws a
TypeError (`Except.error`), instead of returning `null` as documented. -/
def parentId (t : List BSTreeViewNode) (p : List Nat) : Except Unit (List Char) :=
  if p.length ≤ 1 then .error ()
  else
    match getNode? t p.dropLast with
    | some par => .ok par.nodeId
    | none => .error ()

/-- `toggleChecked(options)` in hierarchical mode: temporarily flip the
node, then walk the ancestors recomputing their agreement state via
`setChecked`.  The walk advances with
`currentNode = this._treeView._nodes.get(currentNode.parentId)`; once the
current node is root-level (and for a root-level start, immediately),
`parentId` throws, so the walk always ends in a TypeError
(`Except.error`, carrying the state and events produced so far) and the
descendant propagation, the swap-back and the node's own `setChecked` are
never reached.  Without hierarchical mode the call is
`setChecked(!checked, options)`. -/
def toggleChecked (copts : BSTreeViewMethodOptions) (σ : BSTreeView)
    (p : List Nat) : Except (BSTreeView × List Event) (BSTreeView × List Event) :=
  match getNode? σ.tree p with
  | none => .ok (σ, [])
  | some n =>
    if σ.options.hierarchicalCheck then
      let childOpts :=
        { copts with silent := copts.silent || !σ.options.propagateCheckEvent }
      let t0 := modifyNode
        (fun m => m.withState fun s => { s with checked := some (jsNot s.checked) })
        σ.tree p
      let step := fun (acc : BSTreeView × List Event) (a : List Nat) =>
        match getNode? acc.1.tree a with
        | none => acc
        | some anc =>
          let st := reduceAgree (anc.nodes.map fun c => c.state.checked)
          let r := setChecked childOpts st acc.1 a
          (r.1, acc.2 ++ r.2)
      .error ((ancestorChain p).foldl step ({ σ with tree := t0 }, []))
    else
      .ok (setChecked copts (jsNot n.state.checked) σ p)

/-- `splice(i, 1)`. -/
def removeIdx : Nat → List α → List α
  | _, [] => []
  | 0, _ :: l => l
  | n + 1, a :: l => a :: removeIdx n l

/-- `removeNode` for one node: look up the parent via the current flat map
(`this._nodes.get(node.parentId)` — evaluating `node.parentId` throws for
a root-level node), splice the node out of the parent's children at its
stored `_index`, then rebuild the maps.  (Post-index, the map lookup of
the parent's id returns the structural parent, so the splice is performed
there.) -/
def removeNode (σ : BSTreeView) (p : List Nat) : Except Unit BSTreeView :=
  match getNode? σ.tree p with
  | none => .ok σ
  | some n =>
    match parentId σ.tree p with
    | .error e => .error e
    | .ok _ =>
      let t' := modifyNode (fun par => par.withNodes (removeIdx n.index))
        σ.tree p.dropLast
      updateFlatTreeMaps { σ with tree := t' }

/-! ## Search (`BSTreeView.search`, `_findNodes`, `_getNodeValue`) -/

/-- The attributes the engine queries through `_getNodeValue`. -/
inductive NodeAttr where
  | text
  | stateSelected
  | searchResult
deriving Repr, DecidableEq

/-- `_getNodeValue(node, attr)`.
* `text`: the node text, coerced to a string.
* `state.selected`: recurses into `state` and stringifies the boolean.
* `searchResult`: `getSearchResults()` passes the attribute string
  `'searchResult'`, but the class field of `BSTreeViewNode` is named
  `_searchResult`, so `obj.hasOwnProperty('searchResult')` is false and
  the value is `undefined` (`none`), which `_findNodes` never matches. -/
def getNodeValue (n : BSTreeViewNode) : NodeAttr → Option (List Char)
  | .text => some n.text
  | .stateSelected => some (if n.state.selected then "true".data else "false".data)
  | .searchResult => none

/-- Does `pat` start the list? -/
def startsWith : List Char → List Char → Bool
  | [], _ => true
  | _ :: _, [] => false
  | a :: as, b :: bs => a == b && startsWith as bs

/-- Literal-substring matching; this is what
`val.match(new RegExp(pattern, 'g'))` tests for a pattern without regex
metacharacters (such as `'true'`). -/
def containsSeq (pat : List Char) : List Char → Bool
  | [] => pat.isEmpty
  | c :: rest => startsWith pat (c :: rest) || containsSeq pat rest

/- `_findNodes(pattern, attribute)`: scan `_orderedNodes` (post-index,
the pre-order enumeration of the tree) and keep the nodes whose attribute
value is a string matched by the compiled pattern `m`; an `undefined`
attribute never matches.  Returns the paths of the matching nodes. -/
mutual

def findNodePathsN (m : List Char → Bool) (a : NodeAttr) :
    BSTreeViewNode → List (List Nat)
  | c@(.mk _ _ _ _ _ _ cs) =>
    (match getNodeValue c a with
     | some v => if m v then [[]] else []
     | none => [])
      ++ findNodePaths m a 0 cs

def findNodePaths (m : List Char → Bool) (a : NodeAttr) (i : Nat) :
    List BSTreeViewNode → List (List Nat)
  | [] => []
  | c :: rest =>
    (findNodePathsN m a c).map (fun p => i :: p) ++ findNodePaths m a (i + 1) rest

end

/-- `getSearchResults()` is `_findNodes('true', 'searchResult')`. -/
def getSearchResults (σ : BSTreeView) : List (List Nat) :=
  findNodePaths (containsSeq "true".data) .searchResult 0 σ.tree

/-- `_diffArray(a, b)`: the elements of `b` absent from `a`. -/
def diffArray (a b : List (List Nat)) : List (List Nat) :=
  b.filter fun n => !a.contains n

/-- `_setSearchResult(state, options)`. -/
def setSearchResultNode (copts : BSTreeViewMethodOptions) (v : Bool)
    (n : BSTreeViewNode) : BSTreeViewNode :=
  if !copts.force && (some v == n.searchResult) then n
  else n.withSearchResult (some v)

/-- `revealNode`: walk the `_parentNode` chain of each given node calling
`setExpanded(true, options)` on every ancestor, closest first. -/
def revealNode (copts : BSTreeViewMethodOptions) (σ : BSTreeView)
    (p : List Nat) : BSTreeView × List Event :=
  (ancestorChain p).foldl
    (fun acc a =>
      let r := setExpanded copts true acc.1 a
      (r.1, acc.2 ++ r.2))
    (σ, [])

/-- `search(pattern, options)`.  The compiled regular expression is
abstracted as `pat`: `none` is the empty pattern
(`pattern && pattern.length > 0` fails, so `results` stays `[]`), and
`some m` is the matcher the regex denotes.  `revealResults` defaults to
true in `BSTreeSearchOptions`. -/
def search (σ : BSTreeView) (copts : BSTreeViewMethodOptions)
    (revealResults : Bool) (pat : Option (List Char → Bool)) :
    BSTreeView × List (List Nat) × List Event :=
  let previous := getSearchResults σ
  let results :=
    match pat with
    | none => []
    | some m => findNodePaths m .text 0 σ.tree
  -- clear previous results no longer matched
  let t1 := (diffArray results previous).foldl
    (fun t q => modifyNode (setSearchResultNode copts false) t q) σ.tree
  -- set new results
  let t2 := (diffArray previous results).foldl
    (fun t q => modifyNode (setSearchResultNode copts true) t q) t1
  -- reveal hidden nodes (an array is always truthy, so the guard is just
  -- `options.revealResults`)
  let r3 :=
    if revealResults then
      results.foldl
        (fun acc q =>
          let r := revealNode copts acc.1 q
          (r.1, acc.2 ++ r.2))
        ({ σ with tree := t2 }, ([] : List Event))
    else ({ σ with tree := t2 }, ([] : List Event))
  (r3.1, results,
   r3.2 ++ if copts.silent then [] else [([], .searchCompleted)])

/-! ## Helper definitions for the verification -/

/- The subtree-clearing transform performed, state-wise, by the
multi-select-off pass (`unselectAllNodes`): every `selected` flag becomes
false and nothing else changes. -/
mutual

def clearSelN : BSTreeViewNode → BSTreeViewNode
  | .mk t s sr l ix d cs => .mk t { s with selected := false } sr l ix d (clearSel cs)

def clearSel : List BSTreeViewNode → List BSTreeViewNode
  | [] => []
  | c :: rest => clearSelN c :: clearSel rest

end

/-- One collapse step of a child in the collapse branch of `setExpanded`:
recursively collapse, then force `_visible := false`. -/
def collapseOne (opts : BSTreeViewOptions) (copts : BSTreeViewMethodOptions)
    (c : BSTreeViewNode) : BSTreeViewNode :=
  setVisibleNode copts false (setExpandedNode opts copts false c).1

/- The registration (post-order) paths of a forest, with the position of
the first root being `i`; `postPathsN` is the per-subtree relative
version (children first, then the subtree root `[]`). -/
mutual

def postPathsN : BSTreeViewNode → List (List Nat)
  | .mk _ _ _ _ _ _ cs => postPaths 0 cs ++ [[]]

def postPaths (i : Nat) : List BSTreeViewNode → List (List Nat)
  | [] => []
  | c :: rest =>
    (postPathsN c).map (fun p => i :: p) ++ postPaths (i + 1) rest

end

/-- A node built by `BSTreeViewNode.fromData` from a data object carrying
a text, an optional state override and children: unset hierarchy fields
default to `_level = 1` and (undefined) index/id, children are built
recursively. -/
def fromDataNode (t : List Char) (st : BSTreeViewNodeState)
    (cs : List BSTreeViewNode) : BSTreeViewNode :=
  .mk t st none 1 0 [] cs

/-- Run `_updateFlatTreeMaps`, keeping the input on a (never occurring)
sort failure; lets concrete statements name the indexed view. -/
def indexedOf (σ : BSTreeView) : BSTreeView :=
  match updateFlatTreeMaps σ with
  | .ok τ => τ
  | .error _ => σ

/-- Did the computation throw? -/
def isThrown (e : Except (BSTreeView × List Event) (BSTreeView × List Event)) :
    Bool :=
  match e with
  | .error _ => true
  | .ok _ => false

/-- The engine state at the moment a `toggleChecked` TypeError is thrown. -/
def errStateOf (e : Except (BSTreeView × List Event) (BSTreeView × List Event)) :
    Option BSTreeView :=
  match e with
  | .error r => some r.1
  | .ok _ => none

/-- Projections of the state flags of the node at a path. -/
def checkedAt (σ : BSTreeView) (p : List Nat) : Option (Option Bool) :=
  (getNode? σ.tree p).map fun n => n.state.checked

def expandedAt (σ : BSTreeView) (p : List Nat) : Option (Option Bool) :=
  (getNode? σ.tree p).map fun n => n.state.expanded

def visibleAt (σ : BSTreeView) (p : List Nat) : Option (Option Bool) :=
  (getNode? σ.tree p).map fun n => n.state.visible

def selectedAt (σ : BSTreeView) (p : List Nat) : Option Bool :=
  (getNode? σ.tree p).map fun n => n.state.selected

def disabledAt (σ : BSTreeView) (p : List Nat) : Option Bool :=
  (getNode? σ.tree p).map fun n => n.state.disabled

def searchResAt (σ : BSTreeView) (p : List Nat) : Option (Option Bool) :=
  (getNode? σ.tree p).map fun n => n.searchResult

/-! ## Concrete instances used by the claims -/

/-- C5 example data: `[{text:"P", nodes:[{text:"C1"},{text:"C2"}]}]`,
default options (auto-expand depth 1). -/
def exTV : BSTreeView :=
  { options := {},
    tree := [fromDataNode "P".data {}
      [fromDataNode "C1".data {} [], fromDataNode "C2".data {} []]] }

/-- C1 scenario: hierarchical check, a root parent with three direct
children checked true, true, false. -/
def c1TV : BSTreeView :=
  { options := { hierarchicalCheck := true },
    tree := [fromDataNode "P".data { checked := some false }
      [fromDataNode "A".data { checked := some true } [],
       fromDataNode "B".data { checked := some true } [],
       fromDataNode "C".data { checked := some false } []]] }

/-- C1 second scenario: all three children checked true. -/
def c1TVall : BSTreeView :=
  { options := { hierarchicalCheck := true },
    tree := [fromDataNode "P".data { checked := some true }
      [fromDataNode "A".data { checked := some true } [],
       fromDataNode "B".data { checked := some true } [],
       fromDataNode "C".data { checked := some true } []]] }

/-- C3 counterexample data: depth limit 3, an expanded root above an
explicitly collapsed child whose own child is explicitly expanded. -/
def c3TV : BSTreeView :=
  { options := { levels := 3 },
    tree := [fromDataNode "R".data { expanded := some true }
      [fromDataNode "C".data { expanded := some false }
        [fromDataNode "G".data { expanded := some true }
          [fromDataNode "H".data {} []]]]] }

/-- Two plain root nodes (witness data for select and root-throw claims). -/
def c4TV : BSTreeView :=
  { options := {},
    tree := [fromDataNode "A".data {} [], fromDataNode "B".data {} []] }

/-- C6 counterexample data: prevent-unselect on, a single selected,
checked, expanded root node. -/
def c6TV : BSTreeView :=
  { options := { preventUnselect := true },
    tree := [fromDataNode "A".data
      { selected := true, checked := some true, expanded := some true }
      [fromDataNode "K".data {} []]] }

/-- C6 witness data: same node state, prevent-unselect off. -/
def c6TVb : BSTreeView :=
  { options := {},
    tree := [fromDataNode "A".data
      { selected := true, checked := some true, expanded := some true }
      [fromDataNode "K".data {} []]] }

/-- C8 failing input: two root nodes with texts "Child" and "Other". -/
def c8TV : BSTreeView :=
  { options := {},
    tree := [fromDataNode "Child".data {} [], fromDataNode "Other".data {} []] }

/-- C9 witness data: prevent-unselect and allow-reselect on, the first
root selected. -/
def c9TV : BSTreeView :=
  { options := { preventUnselect := true, allowReselect := true },
    tree := [fromDataNode "A".data { selected := true } [],
             fromDataNode "B".data {} []] }

/-- C8 successive searches on `c8TV`: first for "Child", then for
"Other", then with an empty pattern (the compiled regex of a literal
pattern is substring matching). -/
def c8search1 : BSTreeView × List (List Nat) × List Event :=
  search (indexedOf c8TV) {} false (some (containsSeq "Child".data))

def c8search2 : BSTreeView × List (List Nat) × List Event :=
  search c8search1.1 {} false (some (containsSeq "Other".data))

def c8search3 : BSTreeView × List (List Nat) × List Event :=
  search c8search2.1 {} false none

/-! ## Basic lemmas -/

/-- Structural induction over forests (the nested `List` in the node type
makes the autogenerated recursor inconvenient to use directly). -/
theorem forestInd (Q : List BSTreeViewNode → Prop)
    (hnil : Q [])
    (hcons : ∀ t s sr l ix d cs rest, Q cs → Q rest →
      Q (BSTreeViewNode.mk t s sr l ix d cs :: rest)) :
    ∀ ns, Q ns := by
  have key : ∀ k (ns : List BSTreeViewNode), sizeOf ns ≤ k → Q ns := by
    intro k
    induction k with
    | zero =>
      intro ns h
      cases ns with
      | nil => exact hnil
      | cons n rest => exfalso; cases n; simp at h
    | succ k ih =>
      intro ns h
      cases ns with
      | nil => exact hnil
      | cons n rest =>
        cases n with
        | mk t s sr l ix d cs =>
          have h1 : sizeOf cs ≤ k := by simp at h; omega
          have h2 : sizeOf rest ≤ k := by simp at h; omega
          exact hcons t s sr l ix d cs rest (ih cs h1) (ih rest h2)
  intro ns; exact key (sizeOf ns) ns (Nat.le_refl _)

theorem getIdx?_modifyIdx_self {f : α → α} :
    ∀ (l : List α) (i : Nat) (a : α), getIdx? l i = some a →
      getIdx? (modifyIdx f i l) i = some (f a) := by
  intro l
  induction l with
  | nil => intro i a h; simp [getIdx?] at h
  | cons x xs ih =>
    intro i a h
    cases i with
    | zero => simp [getIdx?] at h; simp [modifyIdx, getIdx?, h]
    | succ j =>
      simp [getIdx?] at h
      simp [modifyIdx, getIdx?]
      exact ih j a h

theorem getIdx?_modifyIdx_ne {f : α → α} :
    ∀ (l : List α) (i j : Nat), i ≠ j →
      getIdx? (modifyIdx f i l) j = getIdx? l j := by
  intro l
  induction l with
  | nil => intro i j _; simp [modifyIdx]
  | cons x xs ih =>
    intro i j hne
    cases i with
    | zero =>
      cases j with
      | zero => exact absurd rfl hne
      | succ j' => simp [modifyIdx, getIdx?]
    | succ i' =>
      cases j with
      | zero => simp [modifyIdx, getIdx?]
      | succ j' =>
        simp [modifyIdx, getIdx?]
        exact ih i' j' (fun h => hne (by rw [h]))

theorem modifyIdx_fix {f : α → α} :
    ∀ (l : List α) (i : Nat) (a : α), getIdx? l i = some a → f a = a →
      modifyIdx f i l = l := by
  intro l
  induction l with
  | nil => intro i a h _; simp [getIdx?] at h
  | cons x xs ih =>
    intro i a h hf
    cases i with
    | zero => simp [getIdx?] at h; subst h; simp [modifyIdx, hf]
    | succ j => simp [getIdx?] at h; simp [modifyIdx]; exact ih j a h hf

theorem withNodes_fix (n : BSTreeViewNode) (f : List BSTreeViewNode → List BSTreeViewNode)
    (h : f n.nodes = n.nodes) : n.withNodes f = n := by
  cases n with
  | mk t s sr l ix d cs =>
    simp [BSTreeViewNode.nodes] at h
    simp [BSTreeViewNode.withNodes, h]

theorem withNodes_nodes (n : BSTreeViewNode) (f : List BSTreeViewNode → List BSTreeViewNode) :
    (n.withNodes f).nodes = f n.nodes := by
  cases n; simp [BSTreeViewNode.withNodes, BSTreeViewNode.nodes]

theorem withNodes_state (n : BSTreeViewNode) (f : List BSTreeViewNode → List BSTreeViewNode) :
    (n.withNodes f).state = n.state := by
  cases n; simp [BSTreeViewNode.withNodes, BSTreeViewNode.state]

theorem withState_nodes (n : BSTreeViewNode) (f : BSTreeViewNodeState → BSTreeViewNodeState) :
    (n.withState f).nodes = n.nodes := by
  cases n; simp [BSTreeViewNode.withState, BSTreeViewNode.nodes]

theorem withState_state (n : BSTreeViewNode) (f : BSTreeViewNodeState → BSTreeViewNodeState) :
    (n.withState f).state = f n.state := by
  cases n; simp [BSTreeViewNode.withState, BSTreeViewNode.state]

theorem getNode?_single (ns : List BSTreeViewNode) (i : Nat) :
    getNode? ns [i] = getIdx? ns i := by
  simp only [getNode?]
  cases getIdx? ns i <;> simp

theorem getNode?_cons (ns : List BSTreeViewNode) (i : Nat) (q : List Nat)
    (hq : q ≠ []) :
    getNode? ns (i :: q) = (getIdx? ns i).bind fun n => getNode? n.nodes q := by
  simp only [getNode?]
  cases getIdx? ns i with
  | none => simp
  | some n => simp [List.isEmpty_iff, hq]

theorem modifyNode_cons (f : BSTreeViewNode → BSTreeViewNode)
    (ns : List BSTreeViewNode) (i : Nat) (q : List Nat) (hq : q ≠ []) :
    modifyNode f ns (i :: q) =
      modifyIdx (fun n => n.withNodes fun cs => modifyNode f cs q) i ns := by
  simp only [modifyNode, List.isEmpty_iff]
  congr 1
  funext n
  simp [hq]

theorem modifyNode_single (f : BSTreeViewNode → BSTreeViewNode)
    (ns : List BSTreeViewNode) (i : Nat) :
    modifyNode f ns [i] = modifyIdx f i ns := by
  simp [modifyNode]

/-- Replacing the node at a path with itself is the identity. -/
theorem modifyNode_same :
    ∀ (p : List Nat) (t : List BSTreeViewNode) (n : BSTreeViewNode),
      getNode? t p = some n → modifyNode (fun _ => n) t p = t := by
  intro p
  induction p with
  | nil => intro t n _; simp [modifyNode]
  | cons i q ih =>
    intro t n h
    by_cases hq : q = []
    · subst hq
      rw [getNode?_single] at h
      rw [modifyNode_single]
      exact modifyIdx_fix t i n h rfl
    · rw [getNode?_cons t i q hq] at h
      cases hc : getIdx? t i with
      | none => rw [hc] at h; simp at h
      | some c =>
        rw [hc] at h
        simp only [Option.some_bind] at h
        rw [modifyNode_cons _ _ _ _ hq]
        refine modifyIdx_fix t i c hc ?_
        exact withNodes_fix c _ (ih c.nodes n h)

/-- Modifying at a path rewrites exactly the addressed node. -/
theorem getNode?_modifyNode_self (f : BSTreeViewNode → BSTreeViewNode) :
    ∀ (p : List Nat) (t : List BSTreeViewNode) (n : BSTreeViewNode),
      getNode? t p = some n →
      getNode? (modifyNode f t p) p = some (f n) := by
  intro p
  induction p with
  | nil => intro t n h; simp [getNode?] at h
  | cons i q ih =>
    intro t n h
    by_cases hq : q = []
    · subst hq
      rw [getNode?_single] at h
      rw [modifyNode_single, getNode?_single]
      exact getIdx?_modifyIdx_self t i n h
    · rw [getNode?_cons t i q hq] at h
      cases hc : getIdx? t i with
      | none => rw [hc] at h; simp at h
      | some c =>
        rw [hc] at h
        simp only [Option.some_bind] at h
        rw [modifyNode_cons _ _ _ _ hq, getNode?_cons _ _ _ hq,
          getIdx?_modifyIdx_self t i c hc]
        simp only [Option.some_bind]
        rw [withNodes_nodes]
        exact ih c.nodes n h

/-- A state-only modification at `p` leaves the state of every other node
unchanged. -/
theorem modifyIdx_none {f : α → α} :
    ∀ (l : List α) (i : Nat), getIdx? l i = none → modifyIdx f i l = l := by
  intro l
  induction l with
  | nil => intro i _; cases i <;> rfl
  | cons x xs ih =>
    intro i h
    cases i with
    | zero => simp [getIdx?] at h
    | succ j =>
      simp [getIdx?] at h
      simp [modifyIdx]
      exact ih j h

/-- A state-only modification at `p` leaves the state of every other node
unchanged. -/
theorem getNode?_modifyNode_ne (f : BSTreeViewNode → BSTreeViewNode)
    (hv : ∀ m, (f m).nodes = m.nodes) :
    ∀ (p q : List Nat) (t : List BSTreeViewNode), q ≠ p →
      (getNode? (modifyNode f t p) q).map BSTreeViewNode.state =
        (getNode? t q).map BSTreeViewNode.state := by
  intro p
  induction p with
  | nil => intro q t _; simp [modifyNode]
  | cons i p' ih =>
    intro q t hne
    cases q with
    | nil => simp [getNode?]
    | cons j q' =>
      by_cases hp' : p' = []
      · subst hp'
        rw [modifyNode_single]
        by_cases hij : j = i
        · subst hij
          have hq0 : q' ≠ [] := fun h => hne (by rw [h])
          rw [getNode?_cons _ _ _ hq0, getNode?_cons _ _ _ hq0]
          cases hc : getIdx? t j with
          | none => rw [modifyIdx_none t j hc, hc]
          | some c =>
            rw [getIdx?_modifyIdx_self t j c hc]
            simp only [Option.some_bind]
            rw [hv c]
        · by_cases hq0 : q' = []
          · subst hq0
            rw [getNode?_single, getNode?_single,
              getIdx?_modifyIdx_ne t i j (fun h => hij h.symm)]
          · rw [getNode?_cons _ _ _ hq0, getNode?_cons _ _ _ hq0,
              getIdx?_modifyIdx_ne t i j (fun h => hij h.symm)]
      · rw [modifyNode_cons _ _ _ _ hp']
        by_cases hij : j = i
        · subst hij
          by_cases hq0 : q' = []
          · subst hq0
            rw [getNode?_single, getNode?_single]
            cases hc : getIdx? t j with
            | none => rw [modifyIdx_none t j hc, hc]
            | some c =>
              rw [getIdx?_modifyIdx_self t j c hc]
              simp [withNodes_state]
          · rw [getNode?_cons _ _ _ hq0, getNode?_cons _ _ _ hq0]
            cases hc : getIdx? t j with
            | none => rw [modifyIdx_none t j hc, hc]
            | some c =>
              rw [getIdx?_modifyIdx_self t j c hc]
              simp only [Option.some_bind]
              rw [withNodes_nodes]
              exact ih q' c.nodes (fun h => hne (by rw [h]))
        · by_cases hq0 : q' = []
          · subst hq0
            rw [getNode?_single, getNode?_single,
              getIdx?_modifyIdx_ne t i j (fun h => hij h.symm)]
          · rw [getNode?_cons _ _ _ hq0, getNode?_cons _ _ _ hq0,
              getIdx?_modifyIdx_ne t i j (fun h => hij h.symm)]

/-! ## Claims C7, C9, C10 -/

/-- C7: for every node and every mutator in {setExpanded, setSelected,
setChecked, setDisabled}, calling the mutator with a value equal to the
node's current value of that state axis, without the force option, leaves
all node state, the checked-node cache, and all visible flags unchanged
(the whole tree-view state is returned as-is) and fires no
notification. -/
theorem C7_idempotent_mutators (σ : BSTreeView) (p : List Nat)
    (n : BSTreeViewNode) (copts : BSTreeViewMethodOptions)
    (hn : getNode? σ.tree p = some n) (hf : copts.force = false) :
    (∀ v, n.state.expanded = some v → setExpanded copts v σ p = (σ, [])) ∧
    setSelected copts n.state.selected σ p = (σ, []) ∧
    setChecked copts n.state.checked σ p = (σ, []) ∧
    setDisabled copts n.state.disabled σ p = (σ, []) := by
  refine ⟨?_, ?_, ?_, ?_⟩
  · intro v hv
    have hguard : setExpandedNode σ.options copts v n = (n, []) := by
      cases n with
      | mk t s sr l ix d cs =>
        simp only [BSTreeViewNode.state] at hv
        simp [setExpandedNode, hf, hv]
    simp only [setExpanded, hn, hguard]
    rw [modifyNode_same p σ.tree n hn]
    simp
  · simp [setSelected, hn, hf]
  · have hguard : setCheckedNode σ.options copts n.state.checked n = (n, []) := by
      simp [setCheckedNode, hf]
    simp only [setChecked, hn, hguard]
    rw [modifyNode_same p σ.tree n hn]
    simp
  · simp [setDisabled, hn, hf]

/-- C7 witness: on the indexed two-node example, each mutator applied
with the current value is a strict no-op. -/
theorem C7_witness :
    setExpanded {} true (indexedOf c6TVb) [0] = (indexedOf c6TVb, []) ∧
    setSelected {} true (indexedOf c6TVb) [0] = (indexedOf c6TVb, []) ∧
    setChecked {} (some true) (indexedOf c6TVb) [0] = (indexedOf c6TVb, []) ∧
    setDisabled {} false (indexedOf c6TVb) [0] = (indexedOf c6TVb, []) := by
  have h := C7_idempotent_mutators (indexedOf c6TVb) [0]
    ((getNode? (indexedOf c6TVb).tree [0]).getD (fromDataNode [] {} []))
    {} (by rfl) rfl
  exact ⟨h.1 true (by rfl), h.2.1, h.2.2.1, h.2.2.2⟩

/-- C9: with preventUnselect enabled and exactly one selected node A,
calling unselectNode(A) directly (not as part of an internal
unselect-for-reselection pass, i.e. with default options) leaves the
whole state unchanged (so A stays selected); if allowReselect is also
enabled, a node-selected notification still fires even though no state
changed. -/
theorem C9_prevent_unselect (σ : BSTreeView) (A : List Nat)
    (n : BSTreeViewNode) (hn : getNode? σ.tree A = some n)
    (hsel : n.state.selected = true)
    (hp : σ.options.preventUnselect = true)
    (hone : (selPaths 0 σ.tree).length = 1) :
    setSelected {} false σ A =
      (σ, if σ.options.allowReselect then [(A, EventName.nodeSelected)] else []) := by
  simp [setSelected, hn, hsel, hp, hone]

/-- C9 witness: on the concrete tree with preventUnselect and
allowReselect on and only the first root selected, the unselect is
rejected and a node-selected event is raised. -/
theorem C9_witness :
    setSelected {} false (indexedOf c9TV) [0] =
      (indexedOf c9TV, [([0], EventName.nodeSelected)]) := by
  have h := C9_prevent_unselect (indexedOf c9TV) [0]
    ((getNode? (indexedOf c9TV).tree [0]).getD (fromDataNode [] {} []))
    (by rfl) (by rfl) (by rfl) (by rfl)
  simpa using h

/-- C10: for every root-level node (null parent reference), reading
`parentId` dereferences the null parent and throws a TypeError instead of
returning null as documented; consequently `removeNode` applied to a
root-level node, and `toggleChecked` on a root-level node in hierarchical
check mode, throw rather than completing. -/
theorem C10_root_parentId_throws (σ : BSTreeView) (i : Nat)
    (n : BSTreeViewNode) (hn : getNode? σ.tree [i] = some n) :
    parentId σ.tree [i] = .error () ∧
    removeNode σ [i] = .error () ∧
    (σ.options.hierarchicalCheck = true →
      ∃ r, toggleChecked {} σ [i] = .error r) := by
  have hpid : parentId σ.tree [i] = .error () := by simp [parentId]
  refine ⟨hpid, ?_, ?_⟩
  · simp [removeNode, hn, hpid]
  · intro hh
    exact ⟨_, by simp only [toggleChecked, hn, hh]; rfl⟩

/-- C10 witness: on the indexed hierarchical example, reading the root
parent id, removing the root and hierarchically toggling the root all
throw. -/
theorem C10_witness :
    parentId (indexedOf c1TV).tree [0] = .error () ∧
    removeNode (indexedOf c1TV) [0] = .error () ∧
    ∃ r, toggleChecked {} (indexedOf c1TV) [0] = .error r := by
  have h := C10_root_parentId_throws (indexedOf c1TV) 0
    ((getNode? (indexedOf c1TV).tree [0]).getD (fromDataNode [] {} []))
    (by rfl)
  exact ⟨h.1, h.2.1, h.2.2 (by rfl)⟩

/-! ## Claims C1 and C8 -/

/-- C1: the claim says that with hierarchical check mode enabled,
toggling the unchecked child of a parent whose children are checked
{true, true, false} completes and makes the parent true, and toggling a
child of an all-true parent completes and makes the parent null.  The
code instead always throws: the upward walk ends by evaluating
`parentId` on a root-level ancestor, which dereferences the null
`_parentNode` (TypeError), after the ancestors have been recomputed but
before the descendant propagation, the swap-back and the node's own
`setChecked` run.  This theorem evaluates the code at the failing inputs:
both calls throw; at the moment of the throw the parent has indeed been
recomputed to true (resp. null) and the toggled child holds only its raw
temporary flip. -/
theorem C1_hierarchical_toggle_throws :
    isThrown (toggleChecked {} (indexedOf c1TV) [0, 2]) = true ∧
    ((errStateOf (toggleChecked {} (indexedOf c1TV) [0, 2])).bind
      fun τ => checkedAt τ [0]) = some (some true) ∧
    ((errStateOf (toggleChecked {} (indexedOf c1TV) [0, 2])).bind
      fun τ => checkedAt τ [0, 2]) = some (some true) ∧
    isThrown (toggleChecked {} (indexedOf c1TVall) [0, 0]) = true ∧
    ((errStateOf (toggleChecked {} (indexedOf c1TVall) [0, 0])).bind
      fun τ => checkedAt τ [0]) = some none := by
  exact ⟨rfl, rfl, rfl, rfl, rfl⟩

/-- `_findNodes` on the attribute string `'searchResult'` matches nothing,
because the node field is named `_searchResult` and the dynamic property
lookup yields `undefined`. -/
theorem findNodePaths_searchResult_nil :
    ∀ ns (m : List Char → Bool) (i : Nat),
      findNodePaths m NodeAttr.searchResult i ns = [] := by
  refine forestInd (fun ns => ∀ m i, findNodePaths m NodeAttr.searchResult i ns = [])
    (fun m i => rfl) ?_
  intro t s sr l ix d cs rest hcs hrest m i
  simp [findNodePaths, findNodePathsN, getNodeValue, hcs, hrest]

/-- C8: the claim says a search with an empty pattern clears the flags of
all previously matching nodes, and that for two successive searches the
result flag is cleared exactly on previousResults minus newResults.  In
the code, `getSearchResults()` queries the attribute `'searchResult'`
while the field is `_searchResult`, so the previous-results list is
always empty and no stale flag is ever cleared: after searching "Child"
and then "Other", the node matched only by the first search keeps its
flag, and a subsequent empty-pattern search clears nothing either. -/
theorem C8_search_diffing_broken :
    (∀ σ : BSTreeView, getSearchResults σ = []) ∧
    c8search1.2.1 = [[0]] ∧
    c8search2.2.1 = [[1]] ∧
    searchResAt c8search2.1 [0] = some (some true) ∧
    searchResAt c8search2.1 [1] = some (some true) ∧
    c8search3.2.1 = [] ∧
    searchResAt c8search3.1 [0] = some (some true) ∧
    searchResAt c8search3.1 [1] = some (some true) := by
  refine ⟨fun σ => findNodePaths_searchResult_nil σ.tree _ 0,
    rfl, rfl, rfl, rfl, rfl, rfl, rfl⟩

/-! ## Claim C5: the hierarchy indexer -/

theorem getIdx?_map (f : α → β) :
    ∀ (l : List α) (i : Nat), getIdx? (l.map f) i = (getIdx? l i).map f := by
  intro l
  induction l with
  | nil => intro i; cases i <;> rfl
  | cons x xs ih =>
    intro i
    cases i with
    | zero => rfl
    | succ j => simp [getIdx?, ih j]

theorem getIdx?_indexForest (opts : BSTreeViewOptions) (pid : List Char)
    (pexp : Option Bool) (real : Bool) (plvl : Nat) :
    ∀ (ns : List BSTreeViewNode) (i0 j : Nat),
      getIdx? (indexForest opts pid pexp real plvl i0 ns).1 j =
        (getIdx? ns j).map
          (fun c => (indexNode opts pid pexp real plvl (i0 + j) c).1) := by
  intro ns
  induction ns with
  | nil => intro i0 j; cases j <;> rfl
  | cons n rest ih =>
    intro i0 j
    cases j with
    | zero => simp [indexForest, getIdx?]
    | succ j' =>
      simp only [indexForest, getIdx?, List.map]
      rw [ih (i0 + 1) j']
      have : i0 + 1 + j' = i0 + (j' + 1) := by omega
      rw [this]

theorem indexForest_getNode? (opts : BSTreeViewOptions) :
    ∀ (p : List Nat) (ns : List BSTreeViewNode) (pid : List Char)
      (pexp : Option Bool) (real : Bool) (plvl i0 : Nat) (m : BSTreeViewNode),
      getNode? ns p = some m →
      ∃ n, getNode? (indexForest opts pid pexp real plvl i0 ns).1 p = some n ∧
        n.state.expanded =
          (if m.state.expanded = none then
            some (!m.state.disabled && decide (plvl + p.length < opts.levels)
              && !m.nodes.isEmpty)
          else m.state.expanded) ∧
        n.level = plvl + p.length := by
  intro p
  induction p with
  | nil => intro ns _ _ _ _ _ m h; simp [getNode?] at h
  | cons j p' ih =>
    intro ns pid pexp real plvl i0 m h
    by_cases hp' : p' = []
    · subst hp'
      rw [getNode?_single] at h
      refine ⟨(indexNode opts pid pexp real plvl (i0 + j) m).1, ?_, ?_, ?_⟩
      · rw [getNode?_single, getIdx?_indexForest, h]; rfl
      · cases m with
        | mk t s sr l ix d cs =>
          simp [indexNode, BSTreeViewNode.state, BSTreeViewNode.nodes]
      · cases m with
        | mk t s sr l ix d cs =>
          simp [indexNode, BSTreeViewNode.level]
    · rw [getNode?_cons _ _ _ hp'] at h
      cases hc : getIdx? ns j with
      | none => rw [hc] at h; simp at h
      | some c =>
        rw [hc] at h
        simp only [Option.some_bind] at h
        cases c with
        | mk t s sr l ix d cs =>
          simp only [BSTreeViewNode.nodes] at h
          obtain ⟨n, hn, hexp, hlvl⟩ :=
            ih cs (pid ++ '.' :: natChars (i0 + j))
              (if s.expanded = none then
                some (!s.disabled && decide (plvl + 1 < opts.levels) && !cs.isEmpty)
              else s.expanded)
              true (plvl + 1) 0 m h
          have hlen : (j :: p').length = p'.length + 1 := by simp
          refine ⟨n, ?_, ?_, ?_⟩
          · rw [getNode?_cons _ _ _ hp', getIdx?_indexForest, hc]
            simp only [Option.map_some', Option.some_bind]
            simp only [indexNode, BSTreeViewNode.nodes]
            exact hn
          · rw [hlen]
            have harith : plvl + (p'.length + 1) = plvl + 1 + p'.length := by omega
            rw [harith]
            exact hexp
          · rw [hlen, hlvl]; omega

theorem inheritCheckboxChanges_tree (τ : BSTreeView) :
    (inheritCheckboxChanges τ).tree = τ.tree := by
  simp only [inheritCheckboxChanges]
  split <;> rfl

theorem updateFlatTreeMaps_tree (σ σ' : BSTreeView)
    (h : updateFlatTreeMaps σ = .ok σ') :
    σ'.tree = (indexForest σ.options (natChars 0) none false 0 0 σ.tree).1 := by
  simp only [updateFlatTreeMaps] at h
  split at h
  · exact absurd h (by simp)
  · injection h with h
    subst h
    rw [inheritCheckboxChanges_tree]

/-- C5: indexing the data `[{text:"P", nodes:[{text:"C1"},{text:"C2"}]}]`
with the default auto-expand depth 1 yields root nodeId "0.0", level 1,
expanded=false; children nodeIds "0.0.0"/"0.0.1", level 2, visible=false;
and in general a node whose data specified no expanded value gets
`expanded = !disabled && level < levels && hasChildren` (level being its
depth, the length of its path). -/
theorem C5_indexing_defaults (σ σ' : BSTreeView) (p : List Nat)
    (m : BSTreeViewNode) (h : updateFlatTreeMaps σ = .ok σ')
    (hm : getNode? σ.tree p = some m) (hexp : m.state.expanded = none) :
    ((getNode? (indexedOf exTV).tree [0]).map BSTreeViewNode.nodeId
        = some "0.0".data ∧
      (getNode? (indexedOf exTV).tree [0]).map BSTreeViewNode.level = some 1 ∧
      expandedAt (indexedOf exTV) [0] = some (some false) ∧
      (getNode? (indexedOf exTV).tree [0, 0]).map BSTreeViewNode.nodeId
        = some "0.0.0".data ∧
      (getNode? (indexedOf exTV).tree [0, 1]).map BSTreeViewNode.nodeId
        = some "0.0.1".data ∧
      (getNode? (indexedOf exTV).tree [0, 0]).map BSTreeViewNode.level = some 2 ∧
      (getNode? (indexedOf exTV).tree [0, 1]).map BSTreeViewNode.level = some 2 ∧
      visibleAt (indexedOf exTV) [0, 0] = some (some false) ∧
      visibleAt (indexedOf exTV) [0, 1] = some (some false)) ∧
    ∃ n, getNode? σ'.tree p = some n ∧
      n.state.expanded =
        some (!m.state.disabled && decide (p.length < σ.options.levels)
          && !m.nodes.isEmpty) ∧
      n.level = p.length := by
  constructor
  · exact ⟨rfl, rfl, rfl, rfl, rfl, rfl, rfl, rfl, rfl⟩
  · rw [updateFlatTreeMaps_tree σ σ' h]
    obtain ⟨n, hn, he, hl⟩ :=
      indexForest_getNode? σ.options p σ.tree (natChars 0) none false 0 0 m hm
    rw [hexp] at he
    simp only [if_pos rfl, Nat.zero_add] at he hl
    exact ⟨n, hn, he, hl⟩

/-- C5 witness: the general default-expanded rule applied to the root of
the concrete example. -/
theorem C5_witness :
    ∃ n, getNode? (indexedOf exTV).tree [0] = some n ∧
      n.state.expanded = some false ∧ n.level = 1 := by
  have h := C5_indexing_defaults exTV (indexedOf exTV) [0]
    ((getNode? exTV.tree [0]).getD (fromDataNode [] {} []))
    (by rfl) (by rfl) (by rfl)
  obtain ⟨n, hn, he, hl⟩ := h.2
  exact ⟨n, hn, by rw [he]; rfl, hl⟩

/-! ## Claim C4: single-select invariant -/

/-- State-wise, the multi-select-off pass clears every `selected` flag. -/
theorem unselectAll_fst :
    ∀ (ns : List BSTreeViewNode) (copts : BSTreeViewMethodOptions) (i : Nat),
      (unselectAllNodes copts i ns).1 = clearSel ns := by
  refine forestInd
    (fun ns => ∀ copts i, (unselectAllNodes copts i ns).1 = clearSel ns) ?_ ?_
  · intro copts i; rfl
  · intro t s sr l ix d cs rest hcs hrest copts i
    simp [unselectAllNodes, unselectAllN, clearSel, clearSelN, hcs, hrest]

theorem clearSelN_nodes (n : BSTreeViewNode) :
    (clearSelN n).nodes = clearSel n.nodes := by
  cases n; simp [clearSelN, BSTreeViewNode.nodes]

theorem clearSelN_selected (n : BSTreeViewNode) :
    (clearSelN n).state.selected = false := by
  cases n; simp [clearSelN, BSTreeViewNode.state]

theorem getIdx?_clearSel :
    ∀ (ns : List BSTreeViewNode) (i : Nat),
      getIdx? (clearSel ns) i = (getIdx? ns i).map clearSelN := by
  intro ns
  induction ns with
  | nil => intro i; cases i <;> rfl
  | cons c rest ih =>
    intro i
    cases i with
    | zero => simp [clearSel, getIdx?]
    | succ j => simp [clearSel, getIdx?, ih j]

theorem getNode?_clearSel :
    ∀ (p : List Nat) (ns : List BSTreeViewNode),
      getNode? (clearSel ns) p = (getNode? ns p).map clearSelN := by
  intro p
  induction p with
  | nil => intro ns; simp [getNode?]
  | cons j p' ih =>
    intro ns
    by_cases hp' : p' = []
    · subst hp'
      rw [getNode?_single, getNode?_single, getIdx?_clearSel]
    · rw [getNode?_cons _ _ _ hp', getNode?_cons _ _ _ hp', getIdx?_clearSel]
      cases getIdx? ns j with
      | none => rfl
      | some c =>
        simp only [Option.map_some', Option.some_bind]
        rw [clearSelN_nodes]
        exact ih c.nodes

/-- After clearing every selection and re-selecting the node at `B`, a
node is selected exactly when it is the node at `B`. -/
theorem selectOnly_spec (t : List BSTreeViewNode) (B : List Nat)
    (nb : BSTreeViewNode) (hb : getNode? t B = some nb) :
    ∀ q d,
      getNode?
        (modifyNode (fun m => m.withState fun s => { s with selected := true })
          (clearSel t) B) q = some d →
      (d.state.selected = true ↔ q = B) := by
  intro q d hd
  by_cases hq : q = B
  · subst hq
    have hB : getNode? (clearSel t) q = some (clearSelN nb) := by
      rw [getNode?_clearSel, hb]; rfl
    have := getNode?_modifyNode_self
      (fun m => m.withState fun s => { s with selected := true }) q (clearSel t)
      (clearSelN nb) hB
    rw [this] at hd
    injection hd with hd
    subst hd
    simp [withState_state]
  · have hmap := getNode?_modifyNode_ne
      (fun m => m.withState fun s => { s with selected := true })
      (fun m => withState_nodes m _) B q (clearSel t) hq
    rw [hd, getNode?_clearSel] at hmap
    cases hx : getNode? t q with
    | none => rw [hx] at hmap; simp at hmap
    | some x =>
      rw [hx] at hmap
      simp only [Option.map_some'] at hmap
      injection hmap with hmap
      rw [hmap, clearSelN_selected]
      simp [hq]

/-- C4: with multi-select disabled, after selectNode(A) followed by
selectNode(B) (A ≠ B, at most one of them selected beforehand — the
claimed standing invariant), a node of the tree is selected exactly when
it is B: setSelected(true) first unselects every other currently-selected
node before setting selected=true. -/
theorem C4_single_select (σ : BSTreeView) (A B : List Nat)
    (na nb : BSTreeViewNode) (hm : σ.options.multiSelect = false)
    (ha : getNode? σ.tree A = some na) (hb : getNode? σ.tree B = some nb)
    (hAB : A ≠ B)
    (hinv : na.state.selected = false ∨ nb.state.selected = false) :
    ∀ q d,
      getNode? ((setSelected {} true (setSelected {} true σ A).1 B).1.tree) q
        = some d →
      (d.state.selected = true ↔ q = B) := by
  by_cases hsa : na.state.selected = true
  · have hsb : nb.state.selected = false := by
      rcases hinv with h | h
      · exact absurd hsa (by simp [h])
      · exact h
    have hσ1 : (setSelected {} true σ A).1 = σ := by
      simp [setSelected, ha, hsa]
    rw [hσ1]
    have htree :
        (setSelected {} true σ B).1.tree =
          modifyNode (fun m => m.withState fun s => { s with selected := true })
            (clearSel σ.tree) B := by
      simp [setSelected, hb, hsb, hm, unselectAll_fst]
    rw [htree]
    exact selectOnly_spec σ.tree B nb hb
  · have htree1 :
        (setSelected {} true σ A).1.tree =
          modifyNode (fun m => m.withState fun s => { s with selected := true })
            (clearSel σ.tree) A := by
      simp [setSelected, ha, Bool.of_not_eq_true hsa, hm, unselectAll_fst]
    have hmap := getNode?_modifyNode_ne
      (fun m => m.withState fun s => { s with selected := true })
      (fun m => withState_nodes m _) A B (clearSel σ.tree) (fun h => hAB h.symm)
    rw [← htree1, getNode?_clearSel, hb] at hmap
    simp only [Option.map_some'] at hmap
    obtain ⟨nb1, hb1, hstate⟩ := Option.map_eq_some'.mp hmap
    have hsb1 : nb1.state.selected = false := by
      rw [hstate, clearSelN_selected]
    have hopts : (setSelected {} true σ A).1.options = σ.options := by
      simp [setSelected, ha, Bool.of_not_eq_true hsa, hm]
    clear htree1 hmap hstate
    revert hb1 hsb1 hopts
    generalize (setSelected {} true σ A).1 = σ1
    intro hb1 hsb1 hopts
    have htree2 :
        (setSelected {} true σ1 B).1.tree =
          modifyNode (fun m => m.withState fun s => { s with selected := true })
            (clearSel σ1.tree) B := by
      simp [setSelected, hb1, hsb1, hopts, hm, unselectAll_fst]
    rw [htree2]
    exact selectOnly_spec _ B nb1 hb1

/-- C4 witness: on the indexed two-root example, after selecting root 0
and then root 1, root 1 is selected and root 0 is not. -/
theorem C4_witness :
    ((getNode?
        ((setSelected {} true (setSelected {} true (indexedOf c4TV) [0]).1 [1]).1.tree)
        [1]).getD (fromDataNode [] {} [])).state.selected = true ∧
    ((getNode?
        ((setSelected {} true (setSelected {} true (indexedOf c4TV) [0]).1 [1]).1.tree)
        [0]).getD (fromDataNode [] {} [])).state.selected = false := by
  have h := C4_single_select (indexedOf c4TV) [0] [1]
    ((getNode? (indexedOf c4TV).tree [0]).getD (fromDataNode [] {} []))
    ((getNode? (indexedOf c4TV).tree [1]).getD (fromDataNode [] {} []))
    (by rfl) (by rfl) (by rfl) (by decide) (Or.inl (by rfl))
  constructor
  · exact (h [1] _ (by rfl)).mpr rfl
  · have h0 := h [0] ((getNode?
      ((setSelected {} true (setSelected {} true (indexedOf c4TV) [0]).1 [1]).1.tree)
      [0]).getD (fromDataNode [] {} [])) (by rfl)
    refine Bool.eq_false_iff.mpr fun hh => ?_
    have := h0.mp hh
    exact absurd this (by decide)

/-- The state of a node after the collapse call `setExpanded(false)`
(without force): only `expanded` changes, to `some false`. -/
theorem setExpandedNode_false_state (opts : BSTreeViewOptions)
    (copts : BSTreeViewMethodOptions) (hf : copts.force = false)
    (n : BSTreeViewNode) :
    ((setExpandedNode opts copts false n).1).state =
      { n.state with expanded := some false } := by
  cases n with
  | mk t s sr l ix d cs =>
    by_cases hg : s.expanded = some false
    · have : (setExpandedNode opts copts false (BSTreeViewNode.mk t s sr l ix d cs)).1
          = BSTreeViewNode.mk t s sr l ix d cs := by
        simp only [setExpandedNode, hf]
        simp [hg]
      rw [this]
      simp only [BSTreeViewNode.state]
      cases s with
      | mk c0 d0 e0 s0 v0 =>
        simp only at hg
        simp [hg]
    · have hg2 : ((some false : Option Bool) == s.expanded) = false := by
        rw [beq_eq_false_iff_ne]
        exact fun h => hg h.symm
      simp only [setExpandedNode, hf]
      simp [hg2, BSTreeViewNode.state]

/-! ## Claim C6: disable cascade -/

/-- C6 counterexample: the claim says that for EVERY selected, checked,
expanded node, setDisabled(true) without keepState results in
selected=false.  With preventUnselect enabled and the node being the last
selected node, the cascaded setSelected(false) is rejected, so the node
ends up disabled yet still selected. -/
theorem C6_counterexample :
    selectedAt (setDisabled {} true (indexedOf c6TV) [0]).1 [0] = some true ∧
    disabledAt (setDisabled {} true (indexedOf c6TV) [0]).1 [0] = some true ∧
    checkedAt (setDisabled {} true (indexedOf c6TV) [0]).1 [0]
      = some (some false) ∧
    expandedAt (setDisabled {} true (indexedOf c6TV) [0]).1 [0]
      = some (some false) := by
  exact ⟨rfl, rfl, rfl, rfl⟩

/-- When the prevent-unselect rule does not apply, unselecting a selected
node just clears its `selected` flag. -/
theorem setSelected_false_tree (σ : BSTreeView) (p : List Nat)
    (n : BSTreeViewNode) (hn : getNode? σ.tree p = some n)
    (hsel : n.state.selected = true)
    (hpu : σ.options.preventUnselect = false) :
    (setSelected {} false σ p).1.tree =
      modifyNode (fun m => m.withState fun s => { s with selected := false })
        σ.tree p := by
  simp [setSelected, hn, hsel, hpu]

/-- `setChecked` rewrites the addressed node by `setCheckedNode`. -/
theorem setChecked_tree (σ : BSTreeView) (p : List Nat) (v : Option Bool)
    (n : BSTreeViewNode) (hn : getNode? σ.tree p = some n) :
    (setChecked {} v σ p).1.tree =
      modifyNode (fun _ => (setCheckedNode σ.options {} v n).1) σ.tree p := by
  simp [setChecked, hn]

/-- `setExpanded` rewrites the addressed node by `setExpandedNode`. -/
theorem setExpanded_tree (σ : BSTreeView) (p : List Nat) (v : Bool)
    (n : BSTreeViewNode) (hn : getNode? σ.tree p = some n) :
    (setExpanded {} v σ p).1.tree =
      modifyNode (fun _ => (setExpandedNode σ.options {} v n).1) σ.tree p := by
  simp [setExpanded, hn]

/-- The state of a node after `setChecked(false)` (without force): only
`checked` changes, to `some false`. -/
theorem setCheckedNode_false_state (opts : BSTreeViewOptions)
    (copts : BSTreeViewMethodOptions) (hf : copts.force = false)
    (n : BSTreeViewNode) :
    ((setCheckedNode opts copts (some false) n).1).state =
      { n.state with checked := some false } := by
  by_cases hg : n.state.checked = some false
  · have hr : (setCheckedNode opts copts (some false) n).1 = n := by
      simp only [setCheckedNode, hf]
      simp [hg]
    rw [hr]
    cases hx : n.state with
    | mk c0 d0 e0 s0 v0 =>
      rw [hx] at hg
      simp only at hg
      simp [hg]
  · have hg2 : ((some false : Option Bool) == n.state.checked) = false := by
      rw [beq_eq_false_iff_ne]
      exact fun h => hg h.symm
    simp only [setCheckedNode, hf]
    simp [hg2, withState_state]

/-- `selPathsN` through the record projections. -/
theorem selPathsN_eq (m : BSTreeViewNode) :
    selPathsN m = (if m.state.selected then [[]] else []) ++
      selPaths 0 m.nodes := by
  cases m
  rfl

/-- Writing `disabled` does not change which nodes are selected. -/
theorem selPathsN_withState_disabled (n : BSTreeViewNode) :
    selPathsN (n.withState fun s => { s with disabled := true }) =
      selPathsN n := by
  rw [selPathsN_eq, selPathsN_eq, withState_state, withState_nodes]

theorem selPaths_modifyIdx (h : BSTreeViewNode → BSTreeViewNode)
    (hh : ∀ n, selPathsN (h n) = selPathsN n) :
    ∀ (t : List BSTreeViewNode) (k i : Nat),
      selPaths k (modifyIdx h i t) = selPaths k t := by
  intro t
  induction t with
  | nil => intro k i; cases i <;> rfl
  | cons a l ih =>
    intro k i
    cases i with
    | zero => simp only [modifyIdx, selPaths, hh]
    | succ m =>
      simp only [modifyIdx, selPaths]
      rw [ih]

/-- A point mutation that preserves the addressed node's selected-paths
preserves the selected-paths of the whole forest. -/
theorem selPaths_modifyNode (g : BSTreeViewNode → BSTreeViewNode)
    (hg : ∀ n, selPathsN (g n) = selPathsN n) :
    ∀ (p : List Nat) (t : List BSTreeViewNode) (k : Nat),
      selPaths k (modifyNode g t p) = selPaths k t := by
  intro p
  induction p with
  | nil => intro t k; rfl
  | cons i p' ih =>
    intro t k
    rw [modifyNode]
    refine selPaths_modifyIdx _ ?_ t k i
    intro n
    by_cases hp : p'.isEmpty = true
    · rw [if_pos hp]
      exact hg n
    · rw [if_neg hp, selPathsN_eq, selPathsN_eq, withNodes_state,
        withNodes_nodes, ih]

/-- When the prevent-unselect rule does not fire (its guard is false),
unselecting a selected node just clears its `selected` flag. -/
theorem setSelected_false_noReject (σ : BSTreeView) (p : List Nat)
    (n : BSTreeViewNode) (hn : getNode? σ.tree p = some n)
    (hsel : n.state.selected = true)
    (hng : (σ.options.preventUnselect
      && ((selPaths 0 σ.tree).length == 1)) = false) :
    (setSelected {} false σ p).1.tree =
      modifyNode (fun m => m.withState fun s => { s with selected := false })
        σ.tree p := by
  simp [setSelected, hn, hsel, hng]

/-- When the prevent-unselect rule fires (prevent-unselect enabled, not an
internal unselecting pass, and the tree has exactly one selected node),
the unselect leaves the view unchanged. -/
theorem setSelected_false_reject (σ : BSTreeView) (p : List Nat)
    (n : BSTreeViewNode) (hn : getNode? σ.tree p = some n)
    (hsel : n.state.selected = true)
    (hpu : σ.options.preventUnselect = true)
    (hone : (selPaths 0 σ.tree).length = 1) :
    (setSelected {} false σ p).1 = σ := by
  simp [setSelected, hn, hsel, hpu, hone]

/-- C6 (amended): for every enabled node that is selected, checked and
expanded, calling setDisabled(true) without keepState results in
disabled=true, checked=false, expanded=false, and selected=false — unless
preventUnselect is enabled and the node is the last selected node of the
tree, in which case the cascaded unselect is rejected and only `selected`
survives (stays true) while the rest of the cascade still applies;
calling it with keepState=true changes only the disabled flag of that
node and nothing else in the tree. -/
theorem C6_disable_cascade (σ : BSTreeView) (p : List Nat)
    (n : BSTreeViewNode) (hn : getNode? σ.tree p = some n)
    (hsel : n.state.selected = true) (hchk : n.state.checked = some true)
    (hexp : n.state.expanded = some true) (hdis : n.state.disabled = false) :
    (¬(σ.options.preventUnselect = true ∧ (selPaths 0 σ.tree).length = 1) →
      ∃ d, getNode? (setDisabled {} true σ p).1.tree p = some d ∧
        d.state.disabled = true ∧ d.state.selected = false ∧
        d.state.checked = some false ∧ d.state.expanded = some false) ∧
    (σ.options.preventUnselect = true → (selPaths 0 σ.tree).length = 1 →
      ∃ d, getNode? (setDisabled {} true σ p).1.tree p = some d ∧
        d.state.disabled = true ∧ d.state.selected = true ∧
        d.state.checked = some false ∧ d.state.expanded = some false) ∧
    (setDisabled { keepState := true } true σ p).1.tree =
      modifyNode (fun m => m.withState fun s => { s with disabled := true })
        σ.tree p := by
  have hguard : (true == n.state.disabled) = false := by simp [hdis]
  -- the node after writing `disabled := true`
  have hn1 : getNode? ({ σ with tree := modifyNode (fun m => m.withState fun s => { s with disabled := true }) σ.tree p } : BSTreeView).tree p = some (n.withState fun s => { s with disabled := true }) :=
    getNode?_modifyNode_self _ p σ.tree n hn
  have hsel1 : (n.withState fun s => { s with disabled := true }).state.selected = true := by
    rw [withState_state]; exact hsel
  -- writing `disabled` preserves the selected-paths of the tree
  have hsp : selPaths 0 (modifyNode (fun m => m.withState fun s => { s with disabled := true }) σ.tree p) = selPaths 0 σ.tree :=
    selPaths_modifyNode _ (fun m => selPathsN_withState_disabled m) p σ.tree 0
  refine ⟨?_, ?_, ?_⟩
  · intro h1
    have hng : (σ.options.preventUnselect
        && ((selPaths 0 σ.tree).length == 1)) = false := by
      by_cases hb : σ.options.preventUnselect = true
      · have hc : (selPaths 0 σ.tree).length ≠ 1 := fun hc => h1 ⟨hb, hc⟩
        simp [hb, hc]
      · rw [Bool.not_eq_true] at hb
        simp [hb]
    have hng1 : (({ σ with tree := modifyNode (fun m => m.withState fun s => { s with disabled := true }) σ.tree p } : BSTreeView).options.preventUnselect && ((selPaths 0 ({ σ with tree := modifyNode (fun m => m.withState fun s => { s with disabled := true }) σ.tree p } : BSTreeView).tree).length == 1)) = false := by
      show (σ.options.preventUnselect && ((selPaths 0 (modifyNode (fun m => m.withState fun s => { s with disabled := true }) σ.tree p)).length == 1)) = false
      rw [hsp]
      exact hng
    have hstep : (setDisabled {} true σ p).1 =
        (setExpanded {} false (setChecked {} (some false) (setSelected {} false { σ with tree := modifyNode (fun m => m.withState fun s => { s with disabled := true }) σ.tree p } p).1 p).1 p).1 := by
      simp [setDisabled, hn, hguard]
    rw [hstep]
    -- the cascaded setSelected(false) clears only `selected`
    have hatree : (setSelected {} false { σ with tree := modifyNode (fun m => m.withState fun s => { s with disabled := true }) σ.tree p } p).1.tree =
        modifyNode (fun m => m.withState fun s => { s with selected := false }) (modifyNode (fun m => m.withState fun s => { s with disabled := true }) σ.tree p) p :=
      setSelected_false_noReject _ p _ hn1 hsel1 hng1
    have hn2 : getNode? (setSelected {} false { σ with tree := modifyNode (fun m => m.withState fun s => { s with disabled := true }) σ.tree p } p).1.tree p =
        some ((n.withState fun s => { s with disabled := true }).withState fun s => { s with selected := false }) := by
      rw [hatree]
      exact getNode?_modifyNode_self _ p _ _ hn1
    revert hn2
    generalize (setSelected {} false { σ with tree := modifyNode (fun m => m.withState fun s => { s with disabled := true }) σ.tree p } p).1 = σa
    intro hn2
    -- the cascaded setChecked(false)
    have hbtree := setChecked_tree σa p (some false) _ hn2
    have hn3 : getNode? (setChecked {} (some false) σa p).1.tree p =
        some ((setCheckedNode σa.options {} (some false) ((n.withState fun s => { s with disabled := true }).withState fun s => { s with selected := false })).1) := by
      rw [hbtree]
      exact getNode?_modifyNode_self _ p _ _ hn2
    revert hn3
    generalize (setChecked {} (some false) σa p).1 = σb
    intro hn3
    -- the cascaded setExpanded(false)
    have hctree := setExpanded_tree σb p false _ hn3
    refine ⟨(setExpandedNode σb.options {} false ((setCheckedNode σa.options {} (some false) ((n.withState fun s => { s with disabled := true }).withState fun s => { s with selected := false })).1)).1, ?_, ?_, ?_, ?_, ?_⟩
    · rw [hctree]
      exact getNode?_modifyNode_self _ p _ _ hn3
    all_goals rw [setExpandedNode_false_state σb.options {} rfl,
      setCheckedNode_false_state σa.options {} rfl]
    all_goals try simp [withState_state, hsel, hchk, hexp]
  · intro hpu hone
    have hpu1 : ({ σ with tree := modifyNode (fun m => m.withState fun s => { s with disabled := true }) σ.tree p } : BSTreeView).options.preventUnselect = true := hpu
    have hone1 : (selPaths 0 ({ σ with tree := modifyNode (fun m => m.withState fun s => { s with disabled := true }) σ.tree p } : BSTreeView).tree).length = 1 := by
      show (selPaths 0 (modifyNode (fun m => m.withState fun s => { s with disabled := true }) σ.tree p)).length = 1
      rw [hsp]
      exact hone
    -- the cascaded setSelected(false) is rejected: the view is unchanged
    have hrej : (setSelected {} false { σ with tree := modifyNode (fun m => m.withState fun s => { s with disabled := true }) σ.tree p } p).1 = { σ with tree := modifyNode (fun m => m.withState fun s => { s with disabled := true }) σ.tree p } :=
      setSelected_false_reject _ p _ hn1 hsel1 hpu1 hone1
    have hstep : (setDisabled {} true σ p).1 =
        (setExpanded {} false (setChecked {} (some false) (setSelected {} false { σ with tree := modifyNode (fun m => m.withState fun s => { s with disabled := true }) σ.tree p } p).1 p).1 p).1 := by
      simp [setDisabled, hn, hguard]
    rw [hstep, hrej]
    -- the cascaded setChecked(false)
    have hbtree := setChecked_tree { σ with tree := modifyNode (fun m => m.withState fun s => { s with disabled := true }) σ.tree p } p (some false) _ hn1
    have hn3 : getNode? (setChecked {} (some false) { σ with tree := modifyNode (fun m => m.withState fun s => { s with disabled := true }) σ.tree p } p).1.tree p =
        some ((setCheckedNode σ.options {} (some false) (n.withState fun s => { s with disabled := true })).1) := by
      rw [hbtree]
      exact getNode?_modifyNode_self _ p _ _ hn1
    revert hn3
    generalize (setChecked {} (some false) { σ with tree := modifyNode (fun m => m.withState fun s => { s with disabled := true }) σ.tree p } p).1 = σb
    intro hn3
    -- the cascaded setExpanded(false)
    have hctree := setExpanded_tree σb p false _ hn3
    refine ⟨(setExpandedNode σb.options {} false ((setCheckedNode σ.options {} (some false) (n.withState fun s => { s with disabled := true })).1)).1, ?_, ?_, ?_, ?_, ?_⟩
    · rw [hctree]
      exact getNode?_modifyNode_self _ p _ _ hn3
    all_goals rw [setExpandedNode_false_state σb.options {} rfl,
      setCheckedNode_false_state σ.options {} rfl]
    all_goals try simp [withState_state, hsel, hchk, hexp]
  · simp [setDisabled, hn, hguard]

/-- C6 witness: the amended cascade at concrete inputs — the full cascade
on the selected, checked, expanded root with prevent-unselect off; the
rejected unselect (selected survives) on the same node with
prevent-unselect on and the node the last selected one; and the
keepState=true variant touching only `disabled`. -/
theorem C6_witness :
    (∃ d, getNode? (setDisabled {} true (indexedOf c6TVb) [0]).1.tree [0] = some d ∧
      d.state.disabled = true ∧ d.state.selected = false ∧
      d.state.checked = some false ∧ d.state.expanded = some false) ∧
    (∃ d, getNode? (setDisabled {} true (indexedOf c6TV) [0]).1.tree [0] = some d ∧
      d.state.disabled = true ∧ d.state.selected = true ∧
      d.state.checked = some false ∧ d.state.expanded = some false) ∧
    (setDisabled { keepState := true } true (indexedOf c6TVb) [0]).1.tree =
      modifyNode (fun m => m.withState fun s => { s with disabled := true })
        (indexedOf c6TVb).tree [0] := by
  refine ⟨?_, ?_, ?_⟩
  · exact (C6_disable_cascade (indexedOf c6TVb) [0]
      ((getNode? (indexedOf c6TVb).tree [0]).getD (fromDataNode [] {} []))
      (by rfl) (by rfl) (by rfl) (by rfl) (by rfl)).1 (by decide)
  · exact (C6_disable_cascade (indexedOf c6TV) [0]
      ((getNode? (indexedOf c6TV).tree [0]).getD (fromDataNode [] {} []))
      (by rfl) (by rfl) (by rfl) (by rfl) (by rfl)).2.1 (by rfl) (by decide)
  · exact (C6_disable_cascade (indexedOf c6TVb) [0]
      ((getNode? (indexedOf c6TVb).tree [0]).getD (fromDataNode [] {} []))
      (by rfl) (by rfl) (by rfl) (by rfl) (by rfl)).2.2

/-! ## Claim C3: expand and collapse semantics -/

theorem setVisibleNode_nodes (copts : BSTreeViewMethodOptions) (v : Bool)
    (n : BSTreeViewNode) : (setVisibleNode copts v n).nodes = n.nodes := by
  simp only [setVisibleNode]
  split
  · rfl
  · rw [withState_nodes]

/-- Without force, `_setVisible` is exactly "write `some v` into
`_visible`" (the guard case writes back the same value). -/
theorem setVisibleNode_eq (copts : BSTreeViewMethodOptions) (v : Bool)
    (n : BSTreeViewNode) (hf : copts.force = false) :
    setVisibleNode copts v n = n.withState fun s => { s with visible := some v } := by
  by_cases hg : (some v == n.state.visible) = true
  · have hv : n.state.visible = some v := (beq_iff_eq.mp hg).symm
    have hr : setVisibleNode copts v n = n := by simp [setVisibleNode, hf, hg]
    rw [hr]
    cases n with
    | mk t s sr l ix d cs =>
      simp only [BSTreeViewNode.state] at hv
      cases s with
      | mk c0 d0 e0 s0 v0 =>
        simp only at hv
        simp [BSTreeViewNode.withState, hv]
  · simp [setVisibleNode, hf, hg]

/-- The expand branch of `setExpanded(true)` on a node with children. -/
theorem setExpandedNode_true_expand (opts : BSTreeViewOptions)
    (copts : BSTreeViewMethodOptions) (hf : copts.force = false)
    (t : List Char) (s : BSTreeViewNodeState) (sr : Option Bool) (l ix : Nat)
    (d : List Char) (cs : List BSTreeViewNode)
    (hg : ((some true : Option Bool) == s.expanded) = false)
    (hnc : cs.isEmpty = false) :
    setExpandedNode opts copts true (.mk t s sr l ix d cs) =
      (BSTreeViewNode.mk t { s with expanded := some true } sr l ix d
        (cs.map (setVisibleNode copts true)),
       if copts.silent then [] else [([], .nodeExpanded)]) := by
  simp [setExpandedNode, hf, hg, hnc]

/-- The collapse branch of `setExpanded(false)` on a not-yet-collapsed
node. -/
theorem setExpandedNode_false_collapse (opts : BSTreeViewOptions)
    (copts : BSTreeViewMethodOptions) (hf : copts.force = false)
    (t : List Char) (s : BSTreeViewNodeState) (sr : Option Bool) (l ix : Nat)
    (d : List Char) (cs : List BSTreeViewNode)
    (hg : ((some false : Option Bool) == s.expanded) = false) :
    setExpandedNode opts copts false (.mk t s sr l ix d cs) =
      (BSTreeViewNode.mk t { s with expanded := some false } sr l ix d
        (collapseChildren opts copts 0 cs).1,
       (collapseChildren opts copts 0 cs).2 ++
         if copts.silent then [] else [([], .nodeCollapsed)]) := by
  simp [setExpandedNode, hf, hg]

theorem collapseChildren_fst (opts : BSTreeViewOptions)
    (copts : BSTreeViewMethodOptions) :
    ∀ (ns : List BSTreeViewNode) (i : Nat),
      (collapseChildren opts copts i ns).1 = ns.map (collapseOne opts copts) := by
  intro ns
  induction ns with
  | nil => intro i; rfl
  | cons c rest ih =>
    intro i
    simp [collapseChildren, collapseOne, ih]

theorem collapseOne_flags (opts : BSTreeViewOptions)
    (copts : BSTreeViewMethodOptions) (hf : copts.force = false)
    (c : BSTreeViewNode) :
    (collapseOne opts copts c).state.expanded = some false ∧
    (collapseOne opts copts c).state.visible = some false := by
  rw [collapseOne, setVisibleNode_eq _ _ _ hf, withState_state,
    setExpandedNode_false_state _ _ hf]
  simp

theorem collapseOne_nodes (opts : BSTreeViewOptions)
    (copts : BSTreeViewMethodOptions) (hf : copts.force = false)
    (c : BSTreeViewNode) (hx : (some false == c.state.expanded) = false) :
    (collapseOne opts copts c).nodes = c.nodes.map (collapseOne opts copts) := by
  rw [collapseOne, setVisibleNode_nodes]
  cases c with
  | mk t s sr l ix d cs =>
    simp only [BSTreeViewNode.state] at hx
    rw [setExpandedNode_false_collapse opts copts hf t s sr l ix d cs hx]
    simp [BSTreeViewNode.nodes, collapseChildren_fst]

/-- The collapse recursion forces `expanded = false` and `visible = false`
on every node of the forest reachable through intermediate nodes that
were not already collapsed. -/
theorem collapse_spec (opts : BSTreeViewOptions)
    (copts : BSTreeViewMethodOptions) (hf : copts.force = false) :
    ∀ (q : List Nat) (ns : List BSTreeViewNode) (d : BSTreeViewNode),
      getNode? ns q = some d →
      (∀ r m, r ≠ [] → r <+: q → r ≠ q → getNode? ns r = some m →
        m.state.expanded ≠ some false) →
      ∃ d', getNode? (ns.map (collapseOne opts copts)) q = some d' ∧
        d'.state.expanded = some false ∧ d'.state.visible = some false := by
  intro q
  induction q with
  | nil => intro ns d h _; simp [getNode?] at h
  | cons j q' ih =>
    intro ns d h hpref
    by_cases hq' : q' = []
    · subst hq'
      rw [getNode?_single] at h
      refine ⟨collapseOne opts copts d, ?_,
        (collapseOne_flags opts copts hf d).1,
        (collapseOne_flags opts copts hf d).2⟩
      rw [getNode?_single, getIdx?_map, h]; rfl
    · rw [getNode?_cons _ _ _ hq'] at h
      cases hc : getIdx? ns j with
      | none => rw [hc] at h; simp at h
      | some c =>
        rw [hc] at h
        simp only [Option.some_bind] at h
        have hcx : c.state.expanded ≠ some false := by
          refine hpref [j] c (by simp) ⟨q', rfl⟩ ?_ ?_
          · intro hh
            injection hh with _ h2
            exact hq' h2.symm
          · rw [getNode?_single]; exact hc
        have hcxb : ((some false : Option Bool) == c.state.expanded) = false := by
          rw [beq_eq_false_iff_ne]
          exact fun hh => hcx hh.symm
        have hpref2 : ∀ r m, r ≠ [] → r <+: q' → r ≠ q' →
            getNode? c.nodes r = some m → m.state.expanded ≠ some false := by
          intro r m hr hrq hrne hm
          refine hpref (j :: r) m (by simp) (List.cons_prefix_cons.mpr ⟨rfl, hrq⟩)
            ?_ ?_
          · intro hh
            injection hh with _ h2
            exact hrne h2
          · rw [getNode?_cons _ _ _ hr, hc]
            simpa using hm
        obtain ⟨d', hd', he', hv'⟩ := ih c.nodes d h hpref2
        refine ⟨d', ?_, he', hv'⟩
        rw [getNode?_cons _ _ _ hq', getIdx?_map, hc]
        simp only [Option.map_some', Option.some_bind]
        rw [collapseOne_nodes opts copts hf c hcxb]
        exact hd'

/-- C3 counterexample: the claim says that after setExpanded(false) no
descendant of the node remains expanded or visible.  With depth limit 3
and data root(expanded) > child(collapsed) > grandchild(expanded),
collapsing the root prunes the recursion at the already-collapsed child,
so the grandchild stays expanded and visible. -/
theorem C3_counterexample :
    expandedAt (setExpanded {} false (indexedOf c3TV) [0]).1 [0]
      = some (some false) ∧
    expandedAt (setExpanded {} false (indexedOf c3TV) [0]).1 [0, 0]
      = some (some false) ∧
    expandedAt (setExpanded {} false (indexedOf c3TV) [0]).1 [0, 0, 0]
      = some (some true) ∧
    visibleAt (setExpanded {} false (indexedOf c3TV) [0]).1 [0, 0, 0]
      = some (some true) := by
  exact ⟨rfl, rfl, rfl, rfl⟩

/-- C3 (amended): setExpanded(true) only takes effect when the node has
children; when it does it sets expanded=true and sets visible=true on the
direct children only (each child is otherwise untouched, in particular
descendants deeper than one level).  setExpanded(false) sets
expanded=false and recursively forces visible=false and expanded=false on
the descendants, but the recursion skips the subtree below any child that
is already collapsed: every descendant whose strict intermediate
ancestors were all not already collapsed ends up with expanded=false and
visible=false (the counterexample shows a deeper node surviving below an
already-collapsed child). -/
theorem C3_expand_collapse (opts : BSTreeViewOptions)
    (copts : BSTreeViewMethodOptions) (hf : copts.force = false) :
    (∀ n : BSTreeViewNode, n.hasChildren = false →
      setExpandedNode opts copts true n = (n, [])) ∧
    (∀ n : BSTreeViewNode, n.hasChildren = true →
      ((some true : Option Bool) == n.state.expanded) = false →
      ((setExpandedNode opts copts true n).1.state
          = { n.state with expanded := some true } ∧
        ∀ i c, getIdx? n.nodes i = some c →
          getIdx? (setExpandedNode opts copts true n).1.nodes i
            = some (c.withState fun s => { s with visible := some true }))) ∧
    (∀ n : BSTreeViewNode,
      (setExpandedNode opts copts false n).1.state
          = { n.state with expanded := some false } ∧
      (((some false : Option Bool) == n.state.expanded) = false →
        ∀ q d, getNode? n.nodes q = some d →
          (∀ r m, r ≠ [] → r <+: q → r ≠ q → getNode? n.nodes r = some m →
            m.state.expanded ≠ some false) →
          ∃ d', getNode? (setExpandedNode opts copts false n).1.nodes q = some d' ∧
            d'.state.expanded = some false ∧ d'.state.visible = some false)) := by
  refine ⟨?_, ?_, ?_⟩
  · intro n hnc
    cases n with
    | mk t s sr l ix d cs =>
      simp only [BSTreeViewNode.hasChildren, BSTreeViewNode.nodes,
        Bool.not_eq_false'] at hnc
      simp [setExpandedNode, hnc]
  · intro n hnc hg
    cases n with
    | mk t s sr l ix d cs =>
      simp only [BSTreeViewNode.hasChildren, BSTreeViewNode.nodes,
        Bool.not_eq_true'] at hnc
      simp only [BSTreeViewNode.state] at hg
      rw [setExpandedNode_true_expand opts copts hf t s sr l ix d cs hg hnc]
      constructor
      · simp [BSTreeViewNode.state]
      · intro i c hic
        simp only [BSTreeViewNode.nodes] at hic
        simp only [BSTreeViewNode.nodes]
        rw [getIdx?_map, hic]
        simp [setVisibleNode_eq _ _ _ hf]
  · intro n
    constructor
    · exact setExpandedNode_false_state opts copts hf n
    · intro hg q d hget hpref
      cases n with
      | mk t s sr l ix d0 cs =>
        simp only [BSTreeViewNode.state] at hg
        simp only [BSTreeViewNode.nodes] at hget hpref
        have hnodes : (setExpandedNode opts copts false
            (BSTreeViewNode.mk t s sr l ix d0 cs)).1.nodes
            = cs.map (collapseOne opts copts) := by
          rw [setExpandedNode_false_collapse opts copts hf t s sr l ix d0 cs hg]
          simp [BSTreeViewNode.nodes, collapseChildren_fst]
        rw [hnodes]
        exact collapse_spec opts copts hf q cs d hget hpref

/-- C3 witness: the expand half applied to the concrete example tree
(expanding the collapsed root: its state flips and the first child
becomes visible) and the collapse half applied to the root of the
three-level tree (its child is collapsed and hidden). -/
theorem C3_witness :
    setExpandedNode (indexedOf exTV).options {} true
      ((getNode? (indexedOf exTV).tree [0, 0]).getD (fromDataNode [] {} []))
      = ((getNode? (indexedOf exTV).tree [0, 0]).getD (fromDataNode [] {} []), []) ∧
    (setExpandedNode (indexedOf exTV).options {} true
      ((getNode? (indexedOf exTV).tree [0]).getD (fromDataNode [] {} []))).1.state
      = { ((getNode? (indexedOf exTV).tree [0]).getD (fromDataNode [] {} [])).state
          with expanded := some true } ∧
    (∃ d', getNode? (setExpandedNode (indexedOf c3TV).options {} false
        ((getNode? (indexedOf c3TV).tree [0]).getD (fromDataNode [] {} []))).1.nodes
        [0] = some d' ∧
      d'.state.expanded = some false ∧ d'.state.visible = some false) := by
  obtain ⟨h1, h2, h3⟩ := C3_expand_collapse (indexedOf exTV).options {} rfl
  obtain ⟨_, _, h3c⟩ := C3_expand_collapse (indexedOf c3TV).options {} rfl
  refine ⟨?_, ?_, ?_⟩
  · exact h1 _ (by rfl)
  · exact (h2 _ (by rfl) (by rfl)).1
  · refine (h3c _).2 (by rfl) [0] _ (by rfl) ?_
    intro r m hr hrq hrne _
    exfalso
    obtain ⟨tl, htl⟩ := hrq
    cases r with
    | nil => exact hr rfl
    | cons a as =>
      cases as with
      | nil =>
        injection htl with ha hb
        subst ha
        exact hrne rfl
      | cons b bs => simp at htl

/-! ## Claim C2: node-id strings and the render-order sort -/

theorem digitChar_isDigit (d : Nat) (h : d < 10) :
    (Nat.digitChar d).isDigit = true := by
  interval_cases d <;> decide

theorem digitChar_toNat (d : Nat) (h : d < 10) :
    (Nat.digitChar d).toNat - 48 = d := by
  interval_cases d <;> decide

theorem natCharsAux_eq :
    ∀ (fuel n : Nat), n ≤ fuel →
      natCharsAux fuel n = ((Nat.digits 10 n).map Nat.digitChar).reverse := by
  intro fuel
  induction fuel with
  | zero =>
    intro n h
    have hn : n = 0 := by omega
    subst hn
    simp [natCharsAux]
  | succ f ih =>
    intro n h
    by_cases hn : n = 0
    · subst hn; simp [natCharsAux]
    · have hdiv : n / 10 ≤ f := by
        have : n / 10 < n := Nat.div_lt_self (by omega) (by omega)
        omega
      rw [natCharsAux, if_neg hn, ih (n / 10) hdiv,
        Nat.digits_def' (by norm_num : 1 < 10) (by omega : 0 < n)]
      simp

theorem natChars_eq (n : Nat) :
    natChars n =
      if n = 0 then ['0'] else ((Nat.digits 10 n).map Nat.digitChar).reverse := by
  by_cases hn : n = 0
  · simp [natChars, hn]
  · simp [natChars, hn, natCharsAux_eq n n (Nat.le_refl n)]

theorem natChars_ne_nil (n : Nat) : natChars n ≠ [] := by
  rw [natChars_eq]
  by_cases hn : n = 0
  · simp [hn]
  · simp [hn, Nat.digits_ne_nil_iff_ne_zero]

theorem natChars_isDigit (n : Nat) :
    ∀ c ∈ natChars n, c.isDigit = true := by
  rw [natChars_eq]
  by_cases hn : n = 0
  · simp [hn]
  · simp only [hn, if_false, List.mem_reverse, List.mem_map]
    rintro c ⟨d, hd, rfl⟩
    exact digitChar_isDigit d (Nat.digits_lt_base (by norm_num) hd)

theorem natChars_no_dot (n : Nat) : ∀ c ∈ natChars n, c ≠ '.' := by
  intro c hc he
  have := natChars_isDigit n c hc
  rw [he] at this
  exact absurd this (by decide)

theorem digitsVal_append_one (l : List Char) (c : Char) :
    digitsVal (l ++ [c]) = digitsVal l * 10 + (c.toNat - 48) := by
  simp [digitsVal, List.foldl_append]

theorem digitsVal_rev_digits :
    ∀ (ds : List Nat), (∀ d ∈ ds, d < 10) →
      digitsVal ((ds.map Nat.digitChar).reverse) = Nat.ofDigits 10 ds := by
  intro ds
  induction ds with
  | nil => intro _; simp [digitsVal, Nat.ofDigits_nil]
  | cons d tl ih =>
    intro h
    have hd : d < 10 := h d (by simp)
    have htl : ∀ x ∈ tl, x < 10 := fun x hx => h x (by simp [hx])
    simp only [List.map_cons, List.reverse_cons, digitsVal_append_one]
    rw [show digitsVal (List.map Nat.digitChar tl).reverse
        = Nat.ofDigits 10 tl from ih htl]
    rw [digitChar_toNat d hd, Nat.ofDigits_cons]
    ring

theorem digitsVal_natChars (n : Nat) : digitsVal (natChars n) = n := by
  rw [natChars_eq]
  by_cases hn : n = 0
  · simp [hn]; decide
  · rw [if_neg hn,
      digitsVal_rev_digits _ (fun d hd => Nat.digits_lt_base (by norm_num) hd),
      Nat.ofDigits_digits]

theorem natChars_injective (a b : Nat) (h : natChars a = natChars b) : a = b := by
  have := congrArg digitsVal h
  rwa [digitsVal_natChars, digitsVal_natChars] at this

theorem takeWhile_all (p : Char → Bool) :
    ∀ (l : List Char), (∀ c ∈ l, p c = true) → l.takeWhile p = l := by
  intro l
  induction l with
  | nil => intro _; rfl
  | cons c cs ih =>
    intro h
    rw [List.takeWhile_cons, if_pos (h c (by simp))]
    rw [ih (fun x hx => h x (by simp [hx]))]

theorem jsParseInt_natChars (n : Nat) : jsParseInt (natChars n) = some n := by
  simp only [jsParseInt]
  rw [takeWhile_all _ _ (natChars_isDigit n)]
  rw [if_neg (by simpa [List.isEmpty_iff] using natChars_ne_nil n)]
  rw [digitsVal_natChars]

theorem splitDot_no_dot :
    ∀ (a : List Char), (∀ c ∈ a, c ≠ '.') → splitDot a = [a] := by
  intro a
  induction a with
  | nil => intro _; rfl
  | cons c cs ih =>
    intro h
    have hc : c ≠ '.' := h c (by simp)
    rw [splitDot, if_neg hc, ih (fun x hx => h x (by simp [hx]))]

theorem splitDot_append :
    ∀ (a b : List Char), (∀ c ∈ a, c ≠ '.') →
      splitDot (a ++ '.' :: b) = a :: splitDot b := by
  intro a
  induction a with
  | nil => intro b _; simp [splitDot]
  | cons c cs ih =>
    intro b h
    have hc : c ≠ '.' := h c (by simp)
    rw [List.cons_append, splitDot, if_neg hc,
      ih b (fun x hx => h x (by simp [hx]))]

theorem joinDot_cons_cons (a b : List Char) (t : List (List Char)) :
    joinDot (a :: b :: t) = a ++ '.' :: joinDot (b :: t) := rfl

theorem splitDot_joinDot :
    ∀ (parts : List (List Char)), parts ≠ [] →
      (∀ p ∈ parts, ∀ c ∈ p, c ≠ '.') →
      splitDot (joinDot parts) = parts := by
  intro parts
  induction parts with
  | nil => intro h _; exact absurd rfl h
  | cons x rest ih =>
    intro _ h
    cases rest with
    | nil =>
      rw [joinDot]
      exact splitDot_no_dot x (h x (by simp))
    | cons y tl =>
      rw [joinDot_cons_cons, splitDot_append x _ (h x (by simp))]
      rw [ih (List.cons_ne_nil y tl) (fun p hp c hc => h p (by simp [hp]) c hc)]

theorem joinDot_append_one :
    ∀ (parts : List (List Char)) (x : List Char), parts ≠ [] →
      joinDot (parts ++ [x]) = joinDot parts ++ '.' :: x := by
  intro parts
  induction parts with
  | nil => intro x h; exact absurd rfl h
  | cons y rest ih =>
    intro x _
    cases rest with
    | nil => simp [joinDot]
    | cons z tl =>
      simp only [List.cons_append]
      rw [joinDot_cons_cons, joinDot_cons_cons]
      have h2 := ih x (List.cons_ne_nil z tl)
      rw [List.cons_append] at h2
      rw [h2]
      simp

theorem splitDot_renderPath (p : List Nat) (hp : p ≠ []) :
    splitDot (renderPath p) = p.map natChars := by
  rw [renderPath]
  refine splitDot_joinDot _ (by simp [hp]) ?_
  intro q hq c hc
  obtain ⟨m, _, rfl⟩ := List.mem_map.mp hq
  exact natChars_no_dot m c hc

theorem renderPath_inj (p q : List Nat) (hp : p ≠ []) (hq : q ≠ [])
    (h : renderPath p = renderPath q) : p = q := by
  have h2 := congrArg splitDot h
  rw [splitDot_renderPath p hp, splitDot_renderPath q hq] at h2
  exact List.map_injective_iff.mpr
    (fun a b hab => natChars_injective a b hab) h2

theorem parse_renderPath (p : List Nat) (hp : p ≠ []) :
    (splitDot (renderPath p)).map jsParseInt = p.map some := by
  rw [splitDot_renderPath p hp, List.map_map]
  exact List.map_congr_left fun a _ => jsParseInt_natChars a

theorem renderPath_append (p : List Nat) (hp : p ≠ []) (i : Nat) :
    renderPath (p ++ [i]) = renderPath p ++ '.' :: natChars i := by
  rw [renderPath, renderPath, List.map_append, List.map_cons, List.map_nil,
    joinDot_append_one _ _ (by simp [hp])]

theorem validDotPath_renderPath (p : List Nat) (hp : p ≠ []) :
    validDotPath (renderPath p) = true := by
  rw [validDotPath, splitDot_renderPath p hp, List.all_eq_true]
  intro c hc
  obtain ⟨m, _, rfl⟩ := List.mem_map.mp hc
  rw [Bool.and_eq_true, List.all_eq_true]
  constructor
  · simpa [List.isEmpty_iff] using natChars_ne_nil m
  · exact natChars_isDigit m

theorem cmpEntries_map_some :
    ∀ (p q : List Nat), p ≠ q →
      cmpEntries (p.map some) (q.map some) = some (pathCmp p q) := by
  intro p
  induction p with
  | nil =>
    intro q hq
    cases q with
    | nil => exact absurd rfl hq
    | cons b bs => rfl
  | cons a as ih =>
    intro q hq
    cases q with
    | nil => rfl
    | cons b bs =>
      simp only [List.map_cons, cmpEntries, pathCmp]
      by_cases h1 : b < a
      · simp [h1]
      · by_cases h2 : a < b
        · simp [h1, h2]
        · have hab : a = b := by omega
          subst hab
          have has : as ≠ bs := fun h => hq (by rw [h])
          simp [h1, h2, ih bs has]

theorem cmpEntries_map_some_self :
    ∀ (p : List Nat), cmpEntries (p.map some) (p.map some) = none := by
  intro p
  induction p with
  | nil => rfl
  | cons a as ih =>
    simp only [List.map_cons, cmpEntries]
    simp [ih]

theorem pathCmp_eq_iff : ∀ (p q : List Nat), pathCmp p q = .eq ↔ p = q := by
  intro p
  induction p with
  | nil =>
    intro q
    cases q with
    | nil => simp [pathCmp]
    | cons b bs => simp [pathCmp]
  | cons a as ih =>
    intro q
    cases q with
    | nil => simp [pathCmp]
    | cons b bs =>
      simp only [pathCmp]
      by_cases h1 : b < a
      · simp [h1]
        omega
      · by_cases h2 : a < b
        · simp [h1, h2]
          omega
        · have hab : a = b := by omega
          subst hab
          simp [h1, h2, ih bs]

theorem pathCmp_lt_gt : ∀ (p q : List Nat),
    pathCmp p q = .lt ↔ pathCmp q p = .gt := by
  intro p
  induction p with
  | nil =>
    intro q
    cases q with
    | nil => simp [pathCmp]
    | cons b bs => simp [pathCmp]
  | cons a as ih =>
    intro q
    cases q with
    | nil => simp [pathCmp]
    | cons b bs =>
      simp only [pathCmp]
      by_cases h1 : b < a
      · simp [h1, show ¬a < b by omega]
      · by_cases h2 : a < b
        · simp [h1, h2]
        · have hab : a = b := by omega
          subst hab
          simp [h1, h2, ih bs]

theorem pathCmp_lt_trans : ∀ (p q r : List Nat),
    pathCmp p q = .lt → pathCmp q r = .lt → pathCmp p r = .lt := by
  intro p
  induction p with
  | nil =>
    intro q r hpq hqr
    cases q with
    | nil => simp [pathCmp] at hpq
    | cons b bs =>
      cases r with
      | nil => simp [pathCmp] at hqr
      | cons c cs => simp [pathCmp]
  | cons a as ih =>
    intro q r hpq hqr
    cases q with
    | nil => simp [pathCmp] at hpq
    | cons b bs =>
      cases r with
      | nil => simp [pathCmp] at hqr
      | cons c cs =>
        simp only [pathCmp] at hpq hqr ⊢
        by_cases h1 : b < a
        · simp [h1] at hpq
        · by_cases h2 : a < b
          · -- a < b; need a < c
            by_cases h3 : c < b
            · simp [h3] at hqr
            · by_cases h4 : b < c
              · simp [show ¬c < a by omega, show a < c by omega]
              · have : b = c := by omega
                subst this
                simp [show ¬b < a by omega, h2]
          · have hab : a = b := by omega
            subst hab
            simp [h1, h2] at hpq
            by_cases h3 : c < a
            · simp [h3] at hqr
            · by_cases h4 : a < c
              · simp [show ¬c < a by omega, h4]
              · have : a = c := by omega
                subst this
                simp [h3, h4] at hqr ⊢
                exact ih bs cs hpq hqr

theorem cmpNodeIds_render (p q : List Nat) (hp : p ≠ []) (hq : q ≠ []) :
    cmpNodeIds (renderPath p) (renderPath q) = .ok (pathCmp p q) := by
  by_cases heq : renderPath p = renderPath q
  · have hpq : p = q := renderPath_inj p q hp hq heq
    subst hpq
    rw [cmpNodeIds, if_pos heq, (pathCmp_eq_iff p p).mpr rfl]
  · have hpq : p ≠ q := fun h => heq (by rw [h])
    rw [cmpNodeIds, if_neg heq, parse_renderPath p hp, parse_renderPath q hq,
      cmpEntries_map_some p q hpq]

theorem rel_trans_good (x y z : List Char × BSTreeViewNode)
    (hx : ∃ p, p ≠ [] ∧ x.1 = renderPath p)
    (hy : ∃ p, p ≠ [] ∧ y.1 = renderPath p)
    (hz : ∃ p, p ≠ [] ∧ z.1 = renderPath p)
    (h1 : cmpNodeIds x.1 y.1 = .ok .lt) (h2 : cmpNodeIds y.1 z.1 = .ok .lt) :
    cmpNodeIds x.1 z.1 = .ok .lt := by
  obtain ⟨px, hpx, hex⟩ := hx
  obtain ⟨py, hpy, hey⟩ := hy
  obtain ⟨pz, hpz, hez⟩ := hz
  rw [hex, hey, cmpNodeIds_render px py hpx hpy] at h1
  rw [hey, hez, cmpNodeIds_render py pz hpy hpz] at h2
  injection h1 with h1
  injection h2 with h2
  rw [hex, hez, cmpNodeIds_render px pz hpx hpz,
    pathCmp_lt_trans px py pz h1 h2]

theorem rel_total_good (x y : List Char × BSTreeViewNode)
    (hx : ∃ p, p ≠ [] ∧ x.1 = renderPath p)
    (hy : ∃ p, p ≠ [] ∧ y.1 = renderPath p) (hne : x.1 ≠ y.1) :
    cmpNodeIds x.1 y.1 = .ok .lt ∨ cmpNodeIds y.1 x.1 = .ok .lt := by
  obtain ⟨px, hpx, hex⟩ := hx
  obtain ⟨py, hpy, hey⟩ := hy
  have hpq : px ≠ py := by
    intro h; rw [hex, hey, h] at hne; exact hne rfl
  rw [hex, hey, cmpNodeIds_render px py hpx hpy,
    cmpNodeIds_render py px hpy hpx]
  rcases hcase : pathCmp px py with _ | _ | _
  · left; rfl
  · exact absurd ((pathCmp_eq_iff px py).mp hcase) hpq
  · right
    rw [(pathCmp_lt_gt py px).mpr hcase]

theorem insertSorted_ok (x : List Char × BSTreeViewNode)
    (hx : ∃ p, p ≠ [] ∧ x.1 = renderPath p) :
    ∀ (ys : List (List Char × BSTreeViewNode)),
      (∀ y ∈ ys, ∃ p, p ≠ [] ∧ y.1 = renderPath p) →
      x.1 ∉ ys.map Prod.fst →
      ys.Pairwise (fun a b => cmpNodeIds a.1 b.1 = .ok .lt) →
      ∃ l', insertSorted (fun a b => cmpNodeIds a.1 b.1) x ys = .ok l' ∧
        l'.Pairwise (fun a b => cmpNodeIds a.1 b.1 = .ok .lt) ∧
        l'.Perm (x :: ys) := by
  intro ys
  induction ys with
  | nil =>
    intro _ _ _
    exact ⟨[x], rfl,
      List.Pairwise.cons (fun z hz => absurd hz (List.not_mem_nil z))
        List.Pairwise.nil,
      List.Perm.refl [x]⟩
  | cons y ys' ih =>
    intro hgood hnot hpw
    have hxy : x.1 ≠ y.1 := by
      intro h
      exact hnot (by rw [List.map_cons, List.mem_cons]; exact Or.inl h)
    rcases rel_total_good x y hx (hgood y (by simp)) hxy with hlt | hgt
    · -- x sorts before y
      refine ⟨x :: y :: ys', ?_, ?_, List.Perm.refl _⟩
      · simp only [insertSorted, hlt]
      · refine List.Pairwise.cons ?_ hpw
        intro z hz
        rcases List.mem_cons.mp hz with hz | hz
        · rw [hz]; exact hlt
        · exact rel_trans_good x y z hx (hgood y (by simp))
            (hgood z (by simp [hz])) hlt
            ((List.pairwise_cons.mp hpw).1 z hz)
    · -- y sorts before x: recurse
      have hrelxy : cmpNodeIds x.1 y.1 ≠ Except.ok Ordering.lt := by
        intro h
        obtain ⟨px, hpx, hex⟩ := hx
        obtain ⟨py, hpy, hey⟩ := hgood y (by simp)
        rw [hex, hey] at h hgt
        rw [cmpNodeIds_render px py hpx hpy] at h
        rw [cmpNodeIds_render py px hpy hpx] at hgt
        injection h with h
        injection hgt with hgt
        rw [(pathCmp_lt_gt px py).mp h] at hgt
        simp at hgt
      have hcmp : insertSorted (fun a b => cmpNodeIds a.1 b.1) x (y :: ys') =
          (insertSorted (fun a b => cmpNodeIds a.1 b.1) x ys').map
            (fun l => y :: l) := by
        simp only [insertSorted]
        rcases hc : cmpNodeIds x.1 y.1 with e | o
        · obtain ⟨px, hpx, hex⟩ := hx
          obtain ⟨py, hpy, hey⟩ := hgood y (by simp)
          rw [hex, hey, cmpNodeIds_render px py hpx hpy] at hc
          simp at hc
        · rcases o with _ | _ | _
          · exact absurd hc hrelxy
          · -- .ok .eq: the keys would be equal
            obtain ⟨px, hpx, hex⟩ := hx
            obtain ⟨py, hpy, hey⟩ := hgood y (by simp)
            rw [hex, hey, cmpNodeIds_render px py hpx hpy] at hc
            injection hc with hc
            refine absurd ?_ hxy
            rw [hex, hey, (pathCmp_eq_iff px py).mp hc]
          · rfl
      obtain ⟨l'', hok, hpw'', hperm''⟩ := ih
        (fun z hz => hgood z (by simp [hz]))
        (fun h => hnot (by rw [List.map_cons]; exact List.mem_cons_of_mem _ h))
        (List.pairwise_cons.mp hpw).2
      refine ⟨y :: l'', ?_, ?_, ?_⟩
      · rw [hcmp, hok]; rfl
      · refine List.Pairwise.cons ?_ hpw''
        intro z hz
        have hz2 : z ∈ x :: ys' := hperm''.mem_iff.mp hz
        rcases List.mem_cons.mp hz2 with hz2 | hz2
        · rw [hz2]
          rcases rel_total_good x y hx (hgood y (by simp)) hxy with h | h
          · exact absurd h hrelxy
          · exact h
        · exact (List.pairwise_cons.mp hpw).1 z hz2
      · exact (hperm''.cons y).trans (List.Perm.swap x y ys')

theorem sortPairs_ok :
    ∀ (l : List (List Char × BSTreeViewNode)),
      (∀ y ∈ l, ∃ p, p ≠ [] ∧ y.1 = renderPath p) →
      (l.map Prod.fst).Nodup →
      ∃ l', sortPairs (fun a b => cmpNodeIds a.1 b.1) l = .ok l' ∧
        l'.Pairwise (fun a b => cmpNodeIds a.1 b.1 = .ok .lt) ∧
        l'.Perm l := by
  intro l
  induction l with
  | nil => intro _ _; exact ⟨[], rfl, List.Pairwise.nil, List.Perm.refl []⟩
  | cons x xs ih =>
    intro hgood hnd
    obtain ⟨l1, hok1, hpw1, hperm1⟩ := ih
      (fun z hz => hgood z (by simp [hz]))
      (by simpa using hnd.of_cons)
    have hgood1 : ∀ y ∈ l1, ∃ p, p ≠ [] ∧ y.1 = renderPath p :=
      fun y hy => hgood y (by simp [hperm1.mem_iff.mp hy])
    have hnot1 : x.1 ∉ l1.map Prod.fst := by
      intro h
      obtain ⟨z, hz, hz2⟩ := List.mem_map.mp h
      have hzxs : z ∈ xs := hperm1.mem_iff.mp hz
      have : x.1 ∈ xs.map Prod.fst := List.mem_map.mpr ⟨z, hzxs, hz2⟩
      rw [List.map_cons] at hnd
      exact (List.nodup_cons.mp hnd).1 this
    obtain ⟨l2, hok2, hpw2, hperm2⟩ :=
      insertSorted_ok x (hgood x (by simp)) l1 hgood1 hnot1 hpw1
    refine ⟨l2, ?_, hpw2, ?_⟩
    · simp only [sortPairs, hok1, Except.bind]
      exact hok2
    · exact hperm2.trans (hperm1.cons x)

theorem postPaths_head : ∀ (ns : List BSTreeViewNode) (i : Nat) (p : List Nat),
    p ∈ postPaths i ns → ∃ j tl, p = j :: tl ∧ i ≤ j := by
  refine forestInd
    (fun ns => ∀ i p, p ∈ postPaths i ns → ∃ j tl, p = j :: tl ∧ i ≤ j)
    ?_ ?_
  · intro i p hp
    exact absurd hp (List.not_mem_nil p)
  · intro t s sr l ix d cs rest _ hrest i p hp
    rw [postPaths, List.mem_append] at hp
    rcases hp with hp | hp
    · obtain ⟨p', _, rfl⟩ := List.mem_map.mp hp
      exact ⟨i, p', rfl, Nat.le_refl i⟩
    · obtain ⟨j, tl, rfl, hj⟩ := hrest (i + 1) p hp
      exact ⟨j, tl, rfl, Nat.le_of_succ_le hj⟩

theorem postPaths_nodup : ∀ (ns : List BSTreeViewNode) (i : Nat),
    (postPaths i ns).Nodup := by
  refine forestInd (fun ns => ∀ i, (postPaths i ns).Nodup) ?_ ?_
  · intro i
    exact List.Pairwise.nil
  · intro t s sr l ix d cs rest hcs hrest i
    rw [postPaths]
    refine List.Nodup.append ?_ (hrest (i + 1)) ?_
    · refine List.Nodup.map ?_ ?_
      · intro a b hab
        injection hab
      · rw [postPathsN]
        refine List.Nodup.append (hcs 0) (List.nodup_singleton []) ?_
        intro p hp hp2
        obtain ⟨j, tl, heq, _⟩ := postPaths_head cs 0 p hp
        rw [List.mem_singleton] at hp2
        rw [hp2] at heq
        simp at heq
    · intro p hp1 hp2
      obtain ⟨p', _, rfl⟩ := List.mem_map.mp hp1
      obtain ⟨j, tl, heq, hj⟩ := postPaths_head rest (i + 1) _ hp2
      injection heq with h1 h2
      omega

theorem indexForest_keys : ∀ (ns : List BSTreeViewNode)
    (opts : BSTreeViewOptions) (q : List Nat), q ≠ [] →
    ∀ (pexp : Option Bool) (real : Bool) (plvl i : Nat),
    ((indexForest opts (renderPath q) pexp real plvl i ns).2).map Prod.fst =
      (postPaths i ns).map (fun p => renderPath (q ++ p)) := by
  refine forestInd
    (fun ns => ∀ (opts : BSTreeViewOptions) (q : List Nat), q ≠ [] →
      ∀ (pexp : Option Bool) (real : Bool) (plvl i : Nat),
      ((indexForest opts (renderPath q) pexp real plvl i ns).2).map Prod.fst =
        (postPaths i ns).map (fun p => renderPath (q ++ p))) ?_ ?_
  · intro opts q hq pexp real plvl i
    rfl
  · intro t s sr l ix d cs rest hcs hrest opts q hq pexp real plvl i
    have hqi : q ++ [i] ≠ [] := by simp
    have hnid : renderPath q ++ '.' :: natChars i = renderPath (q ++ [i]) :=
      (renderPath_append q hq i).symm
    simp only [indexForest, indexNode]
    rw [hnid]
    simp only [List.map_append, List.map_cons, List.map_nil]
    rw [hcs opts (q ++ [i]) hqi _ true (plvl + 1) 0,
      hrest opts q hq pexp real plvl (i + 1)]
    simp only [postPaths, postPathsN, List.map_append, List.map_map,
      List.map_cons, List.map_nil]
    congr 1
    congr 1
    exact List.map_congr_left fun p _ => by
      simp [Function.comp, List.append_assoc]

theorem mapSet_notmem (m : List (List Char × BSTreeViewNode)) (k : List Char)
    (v : BSTreeViewNode) (h : k ∉ m.map Prod.fst) :
    mapSet m k v = m ++ [(k, v)] := by
  rw [mapSet, if_neg]
  rw [List.any_eq_true]
  rintro ⟨kv, hkv, hbeq⟩
  exact h (List.mem_map.mpr ⟨kv, hkv, by rwa [beq_iff_eq] at hbeq⟩)

theorem mapFromList_aux : ∀ (l acc : List (List Char × BSTreeViewNode)),
    ((acc ++ l).map Prod.fst).Nodup →
    l.foldl (fun m kv => mapSet m kv.1 kv.2) acc = acc ++ l := by
  intro l
  induction l with
  | nil =>
    intro acc _
    rw [List.foldl_nil, List.append_nil]
  | cons kv l' ih =>
    intro acc h
    have hk : kv.1 ∉ acc.map Prod.fst := by
      intro hmem
      rw [List.map_append, List.nodup_append] at h
      exact h.2.2 hmem (by rw [List.map_cons]; exact List.mem_cons_self _ _)
    rw [List.foldl_cons, mapSet_notmem acc kv.1 kv.2 hk, ih]
    · rw [List.append_assoc]
      rfl
    · rw [List.append_assoc]
      exact h

theorem mapFromList_eq_self (l : List (List Char × BSTreeViewNode))
    (h : (l.map Prod.fst).Nodup) : mapFromList l = l :=
  mapFromList_aux l [] h

theorem inheritCheckboxChanges_orderedNodes (σ : BSTreeView) :
    (inheritCheckboxChanges σ).orderedNodes = σ.orderedNodes := by
  rw [inheritCheckboxChanges]
  split <;> rfl

/-- C2: after a full re-index (`_updateFlatTreeMaps`), the sort of the flat
map never hits the comparator's `throw` path; the render-ordered view
returned by `getNodes` has node ids strictly increasing under the
hierarchical path comparator, and every node id is a syntactically valid
dot-path.  Moreover, for any two distinct keys whose component-wise
comparison cannot order them, the comparator raises the sort error rather
than returning a silent default. -/
theorem C2_sorted_ids (σ : BSTreeView) :
    (∃ σ', updateFlatTreeMaps σ = .ok σ' ∧
      ((getNodes σ').map Prod.fst).Pairwise
        (fun a b => cmpNodeIds a b = .ok .lt) ∧
      ∀ k ∈ (getNodes σ').map Prod.fst, validDotPath k = true) ∧
    (∀ a b : List Char, a ≠ b →
      cmpEntries ((splitDot a).map jsParseInt) ((splitDot b).map jsParseInt)
        = none →
      cmpNodeIds a b = .error ()) := by
  constructor
  · have h0 : natChars 0 = renderPath [0] := rfl
    have hkeys :
        ((indexForest σ.options (natChars 0) none false 0 0 σ.tree).2).map
            Prod.fst =
          (postPaths 0 σ.tree).map (fun p => renderPath ([0] ++ p)) := by
      rw [h0]
      exact indexForest_keys σ.tree σ.options [0] (by simp) none false 0 0
    have hgood : ∀ y ∈ (indexForest σ.options (natChars 0) none false 0 0
        σ.tree).2, ∃ p, p ≠ [] ∧ y.1 = renderPath p := by
      intro y hy
      have hm : y.1 ∈ ((indexForest σ.options (natChars 0) none false 0 0
          σ.tree).2).map Prod.fst := List.mem_map.mpr ⟨y, hy, rfl⟩
      rw [hkeys] at hm
      obtain ⟨p, _, hp2⟩ := List.mem_map.mp hm
      exact ⟨[0] ++ p, by simp, hp2.symm⟩
    have hnd : (((indexForest σ.options (natChars 0) none false 0 0
        σ.tree).2).map Prod.fst).Nodup := by
      rw [hkeys]
      refine List.Nodup.map_on ?_ (postPaths_nodup σ.tree 0)
      intro x _ y _ hxy
      have h2 := renderPath_inj ([0] ++ x) ([0] ++ y) (by simp) (by simp) hxy
      simpa using h2
    have hmap := mapFromList_eq_self _ hnd
    obtain ⟨ord, hok, hpw, hperm⟩ := sortPairs_ok _ hgood hnd
    refine ⟨inheritCheckboxChanges { σ with tree := (indexForest σ.options (natChars 0) none false 0 0 σ.tree).1, nodesMap := (indexForest σ.options (natChars 0) none false 0 0 σ.tree).2, orderedNodes := ord }, ?_, ?_, ?_⟩
    · simp only [updateFlatTreeMaps, hmap, hok]
    · rw [getNodes, inheritCheckboxChanges_orderedNodes]
      exact List.pairwise_map.mpr hpw
    · intro k hk
      rw [getNodes, inheritCheckboxChanges_orderedNodes] at hk
      obtain ⟨y, hy, rfl⟩ := List.mem_map.mp hk
      obtain ⟨p, hp, hyp⟩ := hgood y (hperm.mem_iff.mp hy)
      rw [hyp]
      exact validDotPath_renderPath p hp
  · intro a b hne hnone
    rw [cmpNodeIds, if_neg hne, hnone]

/-- C2 at a concrete input: the re-index of the example view sorts without
error, and the two unorderable distinct keys `"a"` and `"b"` drive the
comparator into its error path. -/
theorem C2_witness :
    cmpNodeIds ['a'] ['b'] = .error () :=
  (C2_sorted_ids exTV).2 ['a'] ['b'] (by decide) rfl

end BsTreeview
